import Mathlib

/-!
Verification development for the LinkedIn-Lead-Scraper repository.

The embedding covers:
* `src/api/client.py` — the retrying API gateway (`_make_api_call_with_retry`,
  `get_full_profile`, `get_similar_profiles`, `get_full_profiles_batch`);
* `src/discovery/tree_discovery.py` — the breadth-first discovery engine
  (`discover_from_usernames`, `_discover_tree_iterative`, `_build_result`);
* `src/utils/export.py` — the CSV column computation (`flatten_profile`,
  `export_to_csv`).

Python dictionaries are modelled by structures; a missing or empty string
value is modelled by the empty string (both are falsy in Python and the code
only ever tests them for truthiness).  The cooperative concurrency of the
engine is modelled by a sequential execution of each level batch: the only
shared-state accesses (the dedup filter over the seen set and the appends to
the result list) happen in await-free blocks in the source, so every
interleaving is a linearisation of these atomic blocks.  Remote calls are
modelled by oracle functions supplied as parameters.
-/

/-- A profile payload as returned by the remote API; the model keeps the two
fields the core reads (identity key and handle).  An empty string models a
missing or falsy field. -/
structure ProfileData where
  urn : String
  username : String
deriving DecidableEq, Repr

/-- A remote response dictionary as seen by `_make_api_call_with_retry` and
`get_full_profile`: truthiness, the optional `success` flag, the optional
`message`, and the optional `data` payload (`none` models both an absent
`data` key and a falsy one). -/
structure ApiResponse where
  truthy : Bool
  hasSuccess : Bool
  successVal : Bool
  message : Option String
  data : Option ProfileData
deriving DecidableEq, Repr

/-- One attempt of the wrapped remote call either raises (transport error
with a text) or returns a response. -/
inductive AttemptResult where
  | exc (text : String)
  | resp (r : ApiResponse)
deriving DecidableEq, Repr

/-- Result of `_make_api_call_with_retry`: `(True, response)` or
`(False, error_message)`. -/
inductive CallOutcome where
  | success (r : ApiResponse)
  | failure (e : String)
deriving DecidableEq, Repr

/-- Observable behaviour of one run of the retry loop: its return value, the
sleeps it performed (in order, in time units), the log lines it emitted via
the injected callback, and how many attempts it consumed. -/
structure RetryResult where
  outcome : CallOutcome
  sleeps : List Nat
  logs : List String
  attemptsMade : Nat
deriving DecidableEq, Repr

/-- Retry configuration of `LeadsAPIClient`: `max_retries` and `retry_delay`. -/
structure RetryConfig where
  maxRetries : Nat
  retryDelay : Nat
deriving DecidableEq, Repr

/-- Substring test on character lists: Python `pat in s`. -/
def listContainsSub (pat s : List Char) : Bool :=
  s.tails.any (fun t => pat.isPrefixOf t)

/-- Python `pat in s` on strings. -/
def strContains (s pat : String) : Bool :=
  listContainsSub pat.toList s.toList

/-- Python `s.lower()`, modelled character-wise (the markers compared against
are ASCII). -/
def pyLower (s : String) : String := String.mk (s.toList.map Char.toLower)

/-- The apostrophe character, used in one of the terminal error markers. -/
def apostrophe : Char := Char.ofNat 39

/-- The `non_retryable` marker list from `_make_api_call_with_retry`. -/
def nonRetryableMarkers : List String :=
  ["not found", "doesn" ++ apostrophe.toString ++ "t exist", "cannot be displayed"]

/-- `any(keyword in last_error.lower() for keyword in non_retryable)`. -/
def isNonRetryableMsg (m : String) : Bool :=
  nonRetryableMarkers.any (fun kw => strContains (pyLower m) kw)

/-- `"429" in last_error or "too many requests" in last_error.lower()`. -/
def isRateLimit (t : String) : Bool :=
  strContains t "429" || strContains (pyLower t) "too many requests"

/-- Python `s[:60]`. -/
def truncate60 (s : String) : String := String.mk (s.toList.take 60)

/-- Log line for a retryable explicit-failure response on the first attempt. -/
def retryWarnLog (identifier le : String) : String :=
  "[yellow]⚠ (" ++ identifier ++ ") " ++ truncate60 le ++ "... retrying[/]"

/-- Log line for a rate-limit transport error on the first attempt. -/
def rateLimitLog (identifier : String) (wait : Nat) : String :=
  "[yellow]⏳ (" ++ identifier ++ ") Rate limit hit - waiting " ++ toString wait ++ "s[/]"

/-- Log line for a generic transport error on the first attempt. -/
def errRetryLog (identifier t : String) : String :=
  "[yellow]⚠ (" ++ identifier ++ ") Error: " ++ truncate60 t ++ "... retrying[/]"

/-- Python `last_error or "Max retries exceeded"` (both `None` and the empty
string are falsy). -/
def pyOrMaxRetries : Option String → String
  | none => "Max retries exceeded"
  | some s => if s = "" then "Max retries exceeded" else s

/-- The body of the `for attempt in range(self.max_retries)` loop of
`_make_api_call_with_retry`, with `attempt` the current attempt index and
`remaining = max_retries - attempt` the number of attempts left
(`attempt < max_retries - 1` in the source is `1 < remaining` here).  The
outcome of attempt `i` of the wrapped call is `attempts i`. -/
def retryGo (cfg : RetryConfig) (attempts : Nat → AttemptResult) (identifier : String) :
    Nat → Nat → Option String → RetryResult
  | _, 0, lastError => ⟨.failure (pyOrMaxRetries lastError), [], [], 0⟩
  | attempt, r + 1, _ =>
    match attempts attempt with
    | .resp response =>
      if response.truthy = false then
        if 0 < r then
          let res := retryGo cfg attempts identifier (attempt + 1) r (some "Empty response")
          ⟨res.outcome, cfg.retryDelay :: res.sleeps, res.logs, res.attemptsMade + 1⟩
        else ⟨.failure "Empty response", [], [], 1⟩
      else if response.hasSuccess && !response.successVal then
        let le := response.message.getD "Unknown error"
        if isNonRetryableMsg le then ⟨.failure le, [], [], 1⟩
        else if 0 < r then
          let lg := if attempt = 0 then [retryWarnLog identifier le] else []
          let res := retryGo cfg attempts identifier (attempt + 1) r (some le)
          ⟨res.outcome, 1 :: res.sleeps, lg ++ res.logs, res.attemptsMade + 1⟩
        else ⟨.failure le, [], [], 1⟩
      else if response.hasSuccess && response.successVal then
        ⟨.success response, [], [], 1⟩
      else ⟨.failure "Invalid response format", [], [], 1⟩
    | .exc t =>
      if isRateLimit t then
        if 0 < r then
          let wait := cfg.retryDelay * (attempt + 1)
          let lg := if attempt = 0 then [rateLimitLog identifier wait] else []
          let res := retryGo cfg attempts identifier (attempt + 1) r (some t)
          ⟨res.outcome, wait :: res.sleeps, lg ++ res.logs, res.attemptsMade + 1⟩
        else ⟨.failure "Rate limit exceeded", [], [], 1⟩
      else
        if 0 < r then
          let lg := if attempt = 0 then [errRetryLog identifier t] else []
          let res := retryGo cfg attempts identifier (attempt + 1) r (some t)
          ⟨res.outcome, cfg.retryDelay :: res.sleeps, lg ++ res.logs, res.attemptsMade + 1⟩
        else ⟨.failure (pyOrMaxRetries (some t)), [], [], 1⟩

/-- `LeadsAPIClient._make_api_call_with_retry`. -/
def make_api_call_with_retry (cfg : RetryConfig) (attempts : Nat → AttemptResult)
    (identifier : String) : RetryResult :=
  retryGo cfg attempts identifier 0 cfg.maxRetries none

/-- Result triple of `get_full_profile`: `(success, full_profile_data, error_message)`. -/
structure FetchResult where
  success : Bool
  profile : Option ProfileData
  error : Option String
deriving DecidableEq, Repr

/-- `LeadsAPIClient.get_full_profile`: run the retried call, then validate the
payload shape (a `data` key with a truthy value, and non-empty `urn` and
`username` inside it). -/
def get_full_profile (cfg : RetryConfig) (attempts : Nat → AttemptResult)
    (username : String) : FetchResult :=
  match (make_api_call_with_retry cfg attempts username).outcome with
  | .failure e => ⟨false, none, some e⟩
  | .success response =>
    match response.data with
    | none => ⟨false, none, some "No data in response"⟩
    | some profile_data =>
      if profile_data.urn = "" ∨ profile_data.username = "" then
        ⟨false, none, some "Invalid profile data structure"⟩
      else ⟨true, some profile_data, none⟩

/-- An entry of a similar-profiles list; empty strings model missing or falsy
fields (`urn`, `id`, `username`, `publicIdentifier`). -/
structure SimilarEntry where
  urn : String
  id : String
  username : String
  publicIdentifier : String
deriving DecidableEq, Repr

/-- The entry filter of `LeadsAPIClient.get_similar_profiles`: keep entries
that carry both a truthy `urn` and a truthy `id`. -/
def validSimilarEntries (profiles : List SimilarEntry) : List SimilarEntry :=
  profiles.filter (fun p => p.urn != "" && p.id != "")

/-- `LeadsAPIClient.get_full_profiles_batch` over a per-username attempt
oracle `env`: one `(username, outcome)` per input, in input order
(`asyncio.gather` preserves the order of its argument list). -/
def get_full_profiles_batch (cfg : RetryConfig) (env : String → Nat → AttemptResult)
    (usernames : List String) : List (String × FetchResult) :=
  usernames.map (fun u => (u, get_full_profile cfg (env u) u))

/-- The remote interface as the discovery engine sees it, abstracted at the
level of the two client methods: `fullProfile u` is the validated payload of a
successful `get_full_profile` call (or `none` on any failure), `similar urn`
is the raw `data` list of a successful `get_similar_profiles` call (or `none`
on failure). -/
structure ApiOracle where
  fullProfile : String → Option ProfileData
  similar : String → Option (List SimilarEntry)

/-- One discovered record as stored in `discovered_profiles`: the profile data
plus the two engine-injected fields `depth_level` and `source_urn`. -/
structure DiscRecord where
  data : ProfileData
  depth_level : Nat
  source_urn : String
deriving DecidableEq, Repr

/-- A frontier profile awaiting expansion: the profile data plus the `depth`
and `source_urn` keys set by the engine before queueing. -/
structure Frontier where
  data : ProfileData
  depth : Nat
  source_urn : String
deriving DecidableEq, Repr

/-- Mutable state of a `ProfileTreeDiscovery` run: `discovered_profiles`,
`seen_urns` (a set, held as a duplicate-free list), `failed_usernames` and
`failed_urns`. -/
structure DState where
  discovered : List DiscRecord
  seen : List String
  failed_usernames : List String
  failed_urns : List String
deriving DecidableEq, Repr

/-- The empty starting state set up in `ProfileTreeDiscovery.__init__`. -/
def initState : DState := ⟨[], [], [], []⟩

/-- The Python `or` chain over the `username` and `publicIdentifier` fields
of a similar entry. -/
def chooseUsername (e : SimilarEntry) : String :=
  if e.username ≠ "" then e.username else e.publicIdentifier

/-- The candidate filter loop of `process_profile`: walk the similar list,
queue the preferred handle of every entry that has a truthy urn, a truthy
handle and an unseen urn, marking the urn seen immediately (before any full
fetch).  Returns `(usernames_to_fetch, seen_urns)`. -/
def collectToFetch : List SimilarEntry → List String → List String × List String
  | [], seen => ([], seen)
  | e :: rest, seen =>
    let u := chooseUsername e
    if e.urn ≠ "" ∧ u ≠ "" ∧ e.urn ∉ seen then
      let res := collectToFetch rest (e.urn :: seen)
      (u :: res.1, res.2)
    else collectToFetch rest seen

/-- The result loop of `process_profile`: for each `(username, outcome)` of
the batch fetch, on success set `depth` and `source_urn`, append the record
to `discovered_profiles` immediately, and keep the profile as a new frontier
item; failures only log. -/
def recordResults (parentUrn : String) (childDepth : Nat) :
    List (String × Option ProfileData) → DState → List Frontier × DState
  | [], st => ([], st)
  | (_, some p) :: rest, st =>
    let st1 : DState := { st with discovered := st.discovered ++ [⟨p, childDepth, parentUrn⟩] }
    let res := recordResults parentUrn childDepth rest st1
    (⟨p, childDepth, parentUrn⟩ :: res.1, res.2)
  | (_, none) :: rest, st => recordResults parentUrn childDepth rest st

/-- `process_profile` of `_discover_tree_iterative`: similar-profile lookup,
dedup-and-mark, batch full fetch, record children.  On a failed lookup the
frontier urn goes to `failed_urns` and the item contributes no children. -/
def processProfile (o : ApiOracle) (st : DState) (item : Frontier) :
    List Frontier × DState :=
  match o.similar item.data.urn with
  | none => ([], { st with failed_urns := st.failed_urns ++ [item.data.urn] })
  | some profiles =>
    let valid := validSimilarEntries profiles
    let collected := collectToFetch valid st.seen
    let st1 : DState := { st with seen := collected.2 }
    if collected.1 = [] then ([], st1)
    else
      let results := collected.1.map (fun u => (u, o.fullProfile u))
      recordResults item.data.urn (item.depth + 1) results st1

/-- Process all frontier items of the current level (the `asyncio.gather` over
`process_profile` tasks, modelled as the sequential linearisation of their
atomic state accesses), collecting every new frontier profile. -/
def processBatch (o : ApiOracle) : List Frontier → DState → List Frontier × DState
  | [], st => ([], st)
  | f :: rest, st =>
    let r1 := processProfile o st f
    let r2 := processBatch o rest r1.2
    (r1.1 ++ r2.1, r2.2)

/-- The level-0 recording step of `_discover_tree_iterative`: store each
starting profile as a record with `depth_level` taken from its `depth` key.
(The urn-presence guard of the source is always true here:
every queued profile came out of `get_full_profile`, which requires a
non-empty urn.) -/
def recordBatch : List Frontier → DState → DState
  | [], st => st
  | f :: rest, st =>
    recordBatch rest { st with discovered := st.discovered ++ [⟨f.data, f.depth, f.source_urn⟩] }

/-- The `while queue:` loop of `_discover_tree_iterative`.  The queue holds
`(profile, depth_level)` pairs; each iteration splits off the batch at the
current level, records it when the level is 0, stops at `max_depth`, and
otherwise expands the batch and queues the children at the next level.
`fuel` bounds the number of iterations; a completed run uses
`max_depth + 1` (the loop advances the level by one per iteration and breaks
at `max_depth`), a smaller fuel models a run interrupted at a level
boundary. -/
def treeLoop (o : ApiOracle) (maxDepth : Nat) :
    Nat → List (Frontier × Nat) → Nat → DState → DState
  | 0, _, _, st => st
  | fuel + 1, queue, level, st =>
    if queue = [] then st
    else
      let batch := (queue.filter (fun q => q.2 = level)).map Prod.fst
      let rest := queue.filter (fun q => ¬ q.2 = level)
      if batch = [] then treeLoop o maxDepth fuel rest (level + 1) st
      else
        let st1 := if level = 0 then recordBatch batch st else st
        if maxDepth ≤ level then st1
        else
          let pb := processBatch o batch st1
          treeLoop o maxDepth fuel (rest ++ pb.1.map (fun p => (p, p.depth))) (level + 1) pb.2

/-- The seed-resolution loop of `discover_from_usernames`: sequentially fetch
each username; a success with a fresh non-empty urn becomes a starting
profile with `depth = 0` and `source_urn = ""` and is marked seen; a success
with an already-seen urn is skipped; a missing urn or a failed fetch records
the username in `failed_usernames`. -/
def resolveSeeds (o : ApiOracle) : List String → DState → List Frontier × DState
  | [], st => ([], st)
  | username :: rest, st =>
    match o.fullProfile username with
    | some profile_data =>
      if profile_data.urn ≠ "" then
        if profile_data.urn ∉ st.seen then
          let res := resolveSeeds o rest { st with seen := profile_data.urn :: st.seen }
          (⟨profile_data, 0, ""⟩ :: res.1, res.2)
        else resolveSeeds o rest st
      else resolveSeeds o rest { st with failed_usernames := st.failed_usernames ++ [username] }
    | none => resolveSeeds o rest { st with failed_usernames := st.failed_usernames ++ [username] }

/-- The final state of `discover_from_usernames` run with `fuel` iterations of
the level loop: seed resolution, then — if any seed resolved — the iterative
tree discovery.  `fuel = depth + 1` is a completed run; smaller values model
interruption at a level boundary. -/
def discoverRunFuel (o : ApiOracle) (usernames : List String) (depth fuel : Nat) : DState :=
  let seeds := resolveSeeds o usernames initState
  if seeds.1 = [] then seeds.2
  else treeLoop o depth fuel (seeds.1.map (fun p => (p, 0))) 0 seeds.2

/-- The final state of a completed `discover_from_usernames` run. -/
def discoverState (o : ApiOracle) (usernames : List String) (depth : Nat) : DState :=
  discoverRunFuel o usernames depth (depth + 1)

/-- The report assembled by `ProfileTreeDiscovery._build_result` (without the
activity-log buffer, which only mirrors display output). -/
structure DiscoveryReport where
  profiles : List DiscRecord
  total_discovered : Nat
  unique_urns : Nat
  failed_usernames : List String
  failed_urns : List String
deriving DecidableEq, Repr

/-- `ProfileTreeDiscovery._build_result`. -/
def build_result (st : DState) : DiscoveryReport :=
  ⟨st.discovered, st.discovered.length, st.seen.length, st.failed_usernames, st.failed_urns⟩

/-- `discover_from_usernames`, composed end to end for a completed run. -/
def discover_from_usernames (o : ApiOracle) (usernames : List String) (depth : Nat) :
    DiscoveryReport :=
  build_result (discoverState o usernames depth)

/-- A scalar value of a flattened CSV cell; `truthy` is Python truthiness
(the empty string, `False` and `0` are falsy). -/
inductive FlatValue where
  | str (s : String)
  | bool (b : Bool)
  | nat (n : Nat)
deriving DecidableEq, Repr

/-- Python truthiness of a flattened cell value. -/
def FlatValue.truthy : FlatValue → Bool
  | .str s => s != ""
  | .bool b => b
  | .nat n => n != 0

/-- Geo sub-dictionary of a profile. -/
structure GeoInfo where
  full : String
  country : String
  city : String
deriving DecidableEq, Repr

/-- Language entry of a profile. -/
structure LangInfo where
  name : String
deriving DecidableEq, Repr

/-- Employment position entry of a profile. -/
structure PositionInfo where
  title : String
  companyName : String
  companyURL : String
deriving DecidableEq, Repr

/-- Skill entry of a profile. -/
structure SkillInfo where
  name : String
deriving DecidableEq, Repr

/-- Education entry of a profile. -/
structure EducationInfo where
  schoolName : String
deriving DecidableEq, Repr

/-- A full profile record as handed to the exporters; `geo = none` models a
missing or empty (falsy) geo dictionary, empty strings model missing scalar
fields. -/
structure RichProfile where
  id : String
  urn : String
  username : String
  firstName : String
  lastName : String
  headline : String
  summary : String
  isCreator : Bool
  isPremium : Bool
  profilePicture : String
  depth_level : Nat
  source_urn : String
  geo : Option GeoInfo
  languages : List LangInfo
  position : List PositionInfo
  skills : List SkillInfo
  educations : List EducationInfo
deriving DecidableEq, Repr

/-- `flatten_profile` of `src/utils/export.py`: the flattened dictionary as an
association list (its keys are pairwise distinct).  Conditional sections
mirror the source: geo columns only when the geo dictionary is truthy,
languages/skills joined from the first 3/10 entries when non-empty, current
position columns from the first position when present, education from the
first entry when present. -/
def flatten_profile (p : RichProfile) : List (String × FlatValue) :=
  [("id", .str p.id), ("urn", .str p.urn), ("username", .str p.username),
   ("firstName", .str p.firstName), ("lastName", .str p.lastName),
   ("headline", .str p.headline), ("summary", .str p.summary),
   ("isCreator", .bool p.isCreator), ("isPremium", .bool p.isPremium),
   ("profilePicture", .str p.profilePicture), ("depth_level", .nat p.depth_level),
   ("source_urn", .str p.source_urn)]
  ++ (match p.geo with
      | some g => [("location", .str g.full), ("country", .str g.country),
                   ("city", .str g.city)]
      | none => [])
  ++ (if p.languages = [] then []
      else [("languages", .str (String.intercalate ", " ((p.languages.take 3).map LangInfo.name)))])
  ++ (match p.position with
      | [] => []
      | current_pos :: _ =>
        [("current_title", .str current_pos.title),
         ("current_company", .str current_pos.companyName),
         ("current_company_url", .str current_pos.companyURL)])
  ++ (if p.skills = [] then []
      else [("skills", .str (String.intercalate ", " ((p.skills.take 10).map SkillInfo.name)))])
  ++ (match p.educations with
      | [] => []
      | edu :: _ => [("education", .str edu.schoolName)])

/-- Python `flattened_dict.get(key)` as an optional lookup in the association
list. -/
def flatGet (fp : List (String × FlatValue)) (k : String) : Option FlatValue :=
  (fp.find? (fun kv => kv.1 = k)).map Prod.snd

/-- Truthiness of `flattened_dict.get(key)` (`None` for an absent key is
falsy). -/
def flatGetTruthy (fp : List (String × FlatValue)) (k : String) : Bool :=
  match flatGet fp k with
  | some v => v.truthy
  | none => false

/-- Lexicographic string order used to model Python `sorted`, via the
character lists (kept kernel-computable). -/
def pyStrLe (a b : String) : Bool := a.toList ≤ b.toList

/-- The column computation of `export_to_csv`: the union of all flattened
keys, restricted to the keys truthy in at least one flattened record, in
sorted order. -/
def csvFieldnames (profiles : List RichProfile) : List String :=
  let flattened := profiles.map flatten_profile
  let all_keys := (flattened.map (fun fp => fp.map Prod.fst)).flatten.dedup
  let non_empty_keys := all_keys.filter (fun k => flattened.any (fun fp => flatGetTruthy fp k))
  List.insertionSort (fun a b => pyStrLe a b = true) non_empty_keys

/-- `export_to_csv` up to its observable column list: `none` models the early
returns for an empty profile list (no file written), `some fns` the header
written to the file. -/
def export_to_csv (profiles : List RichProfile) : Option (List String) :=
  if profiles = [] then none
  else if profiles.map flatten_profile = [] then none
  else some (csvFieldnames profiles)

/-- Urns of the records discovered so far, in discovery order. -/
def discoveredUrns (st : DState) : List String := st.discovered.map (fun r => r.data.urn)

/-- Dedup invariant of a discovery state: record urns are pairwise distinct,
every record urn and every non-seed source urn is in the seen set. -/
def GInv (st : DState) : Prop :=
  (discoveredUrns st).Nodup ∧
  (∀ r ∈ st.discovered, r.data.urn ∈ st.seen) ∧
  (∀ r ∈ st.discovered, r.depth_level ≠ 0 → r.source_urn ∈ st.seen) ∧
  (∀ r ∈ st.discovered, r.depth_level ≠ 0 →
    ∀ s ∈ st.discovered, s.data.urn = r.source_urn → r.depth_level = s.depth_level + 1)

/-- A frontier item is coherent with a state: its urn is seen, and any record
carrying its urn sits at its depth. -/
def QOk (st : DState) (f : Frontier) : Prop :=
  f.data.urn ∈ st.seen ∧
  ∀ s ∈ st.discovered, s.data.urn = f.data.urn → s.depth_level = f.depth

/-- The key-consistency hypothesis of the amended dedup claims: the full
profile fetched for the preferred handle of a similar-list entry carries the
same identity key as that entry.  The source marks the entry urn seen but
records the fetched urn, so deduplication is only guaranteed when the two
agree. -/
def UrnConsistent (o : ApiOracle) : Prop :=
  ∀ urn entries, o.similar urn = some entries →
    ∀ e ∈ entries, ∀ p, o.fullProfile (chooseUsername e) = some p → p.urn = e.urn

/-- Forest invariant of a discovery state: seed records carry an empty source
urn, and the source urn of every non-seed record is the urn of some other
record. -/
def ForestInv (st : DState) : Prop :=
  ∀ r ∈ st.discovered,
    (r.depth_level = 0 → r.source_urn = "") ∧
    (r.depth_level ≠ 0 →
      ∃ s ∈ st.discovered, s ≠ r ∧ s.data.urn = r.source_urn)

/-- The discovering record of a frontier item is in the result list, at the
depth of the item. -/
def ParentRecorded (st : DState) (f : Frontier) : Prop :=
  ∃ s ∈ st.discovered, s.data.urn = f.data.urn ∧ s.depth_level = f.depth

/-- Full-profile oracle of the C1 counterexample run: two distinct
similar-list candidates whose full profiles share the identity key `V`. -/
def c1cexFull (u : String) : Option ProfileData :=
  if u = "a" then some ⟨"A", "a"⟩
  else if u = "b" then some ⟨"V", "b"⟩
  else if u = "c" then some ⟨"V", "c"⟩
  else none

/-- Similar-profile oracle of the C1 counterexample run. -/
def c1cexSim (urn : String) : Option (List SimilarEntry) :=
  if urn = "A" then some [⟨"u1", "1", "b", ""⟩, ⟨"u2", "1", "c", ""⟩] else some []

/-- The C1 counterexample oracle. -/
def c1cexOracle : ApiOracle := ⟨c1cexFull, c1cexSim⟩

/-- Full-profile oracle of the C1 witness run (key-consistent). -/
def c1wFull (u : String) : Option ProfileData :=
  if u = "a" then some ⟨"A", "a"⟩
  else if u = "b" then some ⟨"u1", "b"⟩
  else none

/-- Similar-profile oracle of the C1 witness run. -/
def c1wSim (urn : String) : Option (List SimilarEntry) :=
  if urn = "A" then some [⟨"u1", "1", "b", ""⟩] else some []

/-- The C1 witness oracle. -/
def c1wOracle : ApiOracle := ⟨c1wFull, c1wSim⟩

/-- Full-profile oracle of the C2 witness run. -/
def c2wFull (u : String) : Option ProfileData :=
  if u = "a" then some ⟨"A", "a"⟩
  else if u = "b" then some ⟨"u1", "b"⟩
  else none

/-- Similar-profile oracle of the C2 witness run. -/
def c2wSim (urn : String) : Option (List SimilarEntry) :=
  if urn = "A" then some [⟨"u1", "1", "b", ""⟩] else some []

/-- The C2 witness oracle. -/
def c2wOracle : ApiOracle := ⟨c2wFull, c2wSim⟩

/-- Full-profile oracle of the C2 counterexample run: the candidate fetched
at level 1 carries the identity key `S` of the seed again, giving two
records with key `S`. -/
def c2cexFull (u : String) : Option ProfileData :=
  if u = "a" then some ⟨"S", "a"⟩
  else if u = "b" then some ⟨"B", "b"⟩
  else if u = "c" then some ⟨"S", "c"⟩
  else none

/-- Similar-profile oracle of the C2 counterexample run. -/
def c2cexSim (urn : String) : Option (List SimilarEntry) :=
  if urn = "S" then some [⟨"u1", "1", "b", ""⟩]
  else if urn = "B" then some [⟨"u2", "1", "c", ""⟩]
  else some []

/-- The C2 counterexample oracle. -/
def c2cexOracle : ApiOracle := ⟨c2cexFull, c2cexSim⟩

/-- Full-profile oracle of the C3 counterexample run: the candidate fetched at
level 1 carries the identity key `S` of the seed again. -/
def c3cexFull (u : String) : Option ProfileData :=
  if u = "a" then some ⟨"S", "a"⟩
  else if u = "b" then some ⟨"B", "b"⟩
  else if u = "c" then some ⟨"S", "c"⟩
  else none

/-- Similar-profile oracle of the C3 counterexample run. -/
def c3cexSim (urn : String) : Option (List SimilarEntry) :=
  if urn = "S" then some [⟨"u1", "1", "b", ""⟩]
  else if urn = "B" then some [⟨"u2", "1", "c", ""⟩]
  else some []

/-- The C3 counterexample oracle. -/
def c3cexOracle : ApiOracle := ⟨c3cexFull, c3cexSim⟩

/-- Full-profile oracle of the C3 witness run (key-consistent). -/
def c3wFull (u : String) : Option ProfileData :=
  if u = "a" then some ⟨"A", "a"⟩
  else if u = "b" then some ⟨"u1", "b"⟩
  else none

/-- Similar-profile oracle of the C3 witness run. -/
def c3wSim (urn : String) : Option (List SimilarEntry) :=
  if urn = "A" then some [⟨"u1", "1", "b", ""⟩] else some []

/-- The C3 witness oracle. -/
def c3wOracle : ApiOracle := ⟨c3wFull, c3wSim⟩

/-- Attempt oracle of the C7 witness: a successful response whose payload has
an empty identity key. -/
def c7wAttempts : Nat → AttemptResult :=
  fun _ => .resp ⟨true, true, true, none, some ⟨"", "x"⟩⟩

/-- Per-username attempt oracle of the C8 witness: every call raises. -/
def c8envA : String → Nat → AttemptResult := fun _ _ => .exc "boom"

/-- Per-username attempt oracle of the C8 witness, differing from `c8envA`
only on the username `other`. -/
def c8envB : String → Nat → AttemptResult :=
  fun u _ => if u = "other" then .resp ⟨true, true, true, none, some ⟨"U", "other"⟩⟩
             else .exc "boom"

/-- One profile for the C10 witness run: only `username` and `isPremium` are
truthy. -/
def c10p : RichProfile :=
  ⟨"", "", "bob", "", "", "", "", false, true, "", 0, "", none, [], [], [], []⟩

/-- C4: if an attempt of a retried API call returns a response carrying the
explicit failure flag and its message contains, case-insensitively, one of
the terminal markers (not found / does not exist / cannot be displayed), the
call fails immediately with that message — one attempt consumed, no sleeps,
no logs — regardless of how many attempts remain. -/
theorem c4_terminal_marker (cfg : RetryConfig) (attempts : Nat → AttemptResult)
    (identifier : String) (attempt r : Nat) (lastError : Option String) (response : ApiResponse)
    (hresp : attempts attempt = .resp response)
    (htruthy : response.truthy = true)
    (hflag : response.hasSuccess = true) (hval : response.successVal = false)
    (hmarker : isNonRetryableMsg (response.message.getD "Unknown error") = true) :
    retryGo cfg attempts identifier attempt (r + 1) lastError =
      ⟨.failure (response.message.getD "Unknown error"), [], [], 1⟩ := by
  simp [retryGo, hresp, htruthy, hflag, hval, hmarker]

/-- Witness for C4 at a concrete terminal message. -/
theorem c4_terminal_marker_witness :
    isNonRetryableMsg "profile not found" = true ∧
      retryGo ⟨3, 2⟩ (fun _ => .resp ⟨true, true, false, some "profile not found", none⟩) "u" 0 3
        none = ⟨.failure "profile not found", [], [], 1⟩ :=
  ⟨by decide,
    c4_terminal_marker ⟨3, 2⟩ _ "u" 0 2 none ⟨true, true, false, some "profile not found", none⟩
      rfl rfl rfl rfl (by decide)⟩

/-- C5 counterexample: with every attempt raising the rate-limit transport
error `HTTP 429 slow down`, exhausting two attempts returns the fixed message
`Rate limit exceeded`, not the error recorded on the last attempt. -/
theorem c5_last_error_counterexample :
    (make_api_call_with_retry ⟨2, 2⟩ (fun _ => .exc "HTTP 429 slow down") "id").outcome =
        .failure "Rate limit exceeded" ∧
      (make_api_call_with_retry ⟨2, 2⟩ (fun _ => .exc "HTTP 429 slow down") "id").attemptsMade = 2 ∧
      "Rate limit exceeded" ≠ "HTTP 429 slow down" := by
  refine ⟨by decide, by decide, by decide⟩

/-- C5 amended: on the final attempt, an empty response returns
`Empty response`, a retryable explicit failure returns its message, any other
transport error returns its text (with `Max retries exceeded` substituted for
an empty text) — but a rate-limited final attempt returns the fixed message
`Rate limit exceeded` instead of the recorded error. -/
theorem c5_last_error_amended (cfg : RetryConfig) (attempts : Nat → AttemptResult)
    (identifier : String) (attempt : Nat) (lastError : Option String) :
    (∀ response, attempts attempt = .resp response → response.truthy = false →
      retryGo cfg attempts identifier attempt 1 lastError =
        ⟨.failure "Empty response", [], [], 1⟩) ∧
    (∀ response, attempts attempt = .resp response → response.truthy = true →
      response.hasSuccess = true → response.successVal = false →
      isNonRetryableMsg (response.message.getD "Unknown error") = false →
      retryGo cfg attempts identifier attempt 1 lastError =
        ⟨.failure (response.message.getD "Unknown error"), [], [], 1⟩) ∧
    (∀ t, attempts attempt = .exc t → isRateLimit t = true →
      retryGo cfg attempts identifier attempt 1 lastError =
        ⟨.failure "Rate limit exceeded", [], [], 1⟩) ∧
    (∀ t, attempts attempt = .exc t → isRateLimit t = false →
      retryGo cfg attempts identifier attempt 1 lastError =
        ⟨.failure (pyOrMaxRetries (some t)), [], [], 1⟩) := by
  refine ⟨?_, ?_, ?_, ?_⟩
  · intro response h1 h2
    simp [retryGo, h1, h2]
  · intro response h1 h2 h3 h4 h5
    simp [retryGo, h1, h2, h3, h4, h5]
  · intro t h1 h2
    simp [retryGo, h1, h2]
  · intro t h1 h2
    simp [retryGo, h1, h2]

/-- Witness for the amended C5 at a concrete rate-limited final attempt. -/
theorem c5_last_error_amended_witness :
    isRateLimit "HTTP 429 slow down" = true ∧
      retryGo ⟨2, 2⟩ (fun _ => .exc "HTTP 429 slow down") "id" 1 1 (some "HTTP 429 slow down") =
        ⟨.failure "Rate limit exceeded", [], [], 1⟩ :=
  ⟨by decide,
    (c5_last_error_amended ⟨2, 2⟩ (fun _ => .exc "HTTP 429 slow down") "id" 1
        (some "HTTP 429 slow down")).2.2.1 "HTTP 429 slow down" rfl (by decide)⟩

/-- C6: when attempts remain, an attempt raising a transport error that
contains `429` or, case-insensitively, `too many requests` sleeps
`retry_delay * (attempt_index + 1)` before the next attempt (linear backoff),
while any other transport error sleeps the flat `retry_delay`. -/
theorem c6_rate_limit_backoff (cfg : RetryConfig) (attempts : Nat → AttemptResult)
    (identifier : String) (attempt r : Nat) (lastError : Option String) (t : String)
    (hexc : attempts attempt = .exc t) :
    (isRateLimit t = true →
      (retryGo cfg attempts identifier attempt (r + 2) lastError).sleeps =
        cfg.retryDelay * (attempt + 1) ::
          (retryGo cfg attempts identifier (attempt + 1) (r + 1) (some t)).sleeps) ∧
    (isRateLimit t = false →
      (retryGo cfg attempts identifier attempt (r + 2) lastError).sleeps =
        cfg.retryDelay ::
          (retryGo cfg attempts identifier (attempt + 1) (r + 1) (some t)).sleeps) := by
  constructor
  · intro hrl
    simp [retryGo, hexc, hrl]
  · intro hrl
    simp [retryGo, hexc, hrl]

/-- Witness for C6 at a concrete rate-limit error on attempt index 1. -/
theorem c6_rate_limit_backoff_witness :
    isRateLimit "error 429" = true ∧
      (retryGo ⟨3, 5⟩ (fun _ => .exc "error 429") "id" 1 2 none).sleeps =
        5 * (1 + 1) :: (retryGo ⟨3, 5⟩ (fun _ => .exc "error 429") "id" 2 1 (some "error 429")).sleeps :=
  ⟨by decide,
    (c6_rate_limit_backoff ⟨3, 5⟩ (fun _ => .exc "error 429") "id" 1 0 none "error 429" rfl).1
      (by decide)⟩

/-- C9 counterexample: three attempts all returning an empty (falsy)
response retry twice yet emit no log line at all, though the claim requires
exactly one line on the first retry of the empty-response category. -/
theorem c9_first_retry_log_counterexample :
    (make_api_call_with_retry ⟨3, 2⟩ (fun _ => .resp ⟨false, false, false, none, none⟩) "x").logs
        = [] ∧
      (make_api_call_with_retry ⟨3, 2⟩
        (fun _ => .resp ⟨false, false, false, none, none⟩) "x").attemptsMade = 3 ∧
      (make_api_call_with_retry ⟨3, 2⟩
        (fun _ => .resp ⟨false, false, false, none, none⟩) "x").outcome =
        .failure "Empty response" := by
  refine ⟨by decide, by decide, by decide⟩

/-- Helper for C9: no log line is ever emitted from an attempt whose index
is not 0. -/
theorem retryGo_logs_nil (cfg : RetryConfig) (attempts : Nat → AttemptResult)
    (identifier : String) :
    ∀ remaining attempt lastError, attempt ≠ 0 →
      (retryGo cfg attempts identifier attempt remaining lastError).logs = [] := by
  intro remaining
  induction remaining with
  | zero => intro attempt lastError h; simp [retryGo]
  | succ r ih =>
    intro attempt lastError h
    cases hA : attempts attempt <;>
      simp only [retryGo, hA] <;>
      split_ifs <;>
      simp [h, ih]

/-- C9 amended: a retried call emits at most one log line in total; lines
are only emitted on attempt index 0, and the empty-response category never
logs. -/
theorem c9_log_amended (cfg : RetryConfig) (attempts : Nat → AttemptResult)
    (identifier : String) :
    (∀ remaining attempt lastError, attempt ≠ 0 →
      (retryGo cfg attempts identifier attempt remaining lastError).logs = []) ∧
    (make_api_call_with_retry cfg attempts identifier).logs.length ≤ 1 ∧
    (∀ response, attempts 0 = .resp response → response.truthy = false →
      (make_api_call_with_retry cfg attempts identifier).logs = []) := by
  have key := retryGo_logs_nil cfg attempts identifier
  refine ⟨key, ?_, ?_⟩
  · unfold make_api_call_with_retry
    cases hm : cfg.maxRetries with
    | zero => simp [retryGo]
    | succ m =>
      cases hA : attempts 0 <;>
        simp only [retryGo, hA] <;>
        split_ifs <;>
        simp [key]
  · intro response h1 h2
    unfold make_api_call_with_retry
    cases hm : cfg.maxRetries with
    | zero => simp [retryGo]
    | succ m =>
      simp only [retryGo, h1, h2]
      split_ifs <;> simp [key]

/-- Witness for the amended C9 at a concrete transport error. -/
theorem c9_log_amended_witness :
    (retryGo ⟨3, 2⟩ (fun _ => .exc "boom") "x" 1 2 (some "boom")).logs = [] ∧
      (make_api_call_with_retry ⟨3, 2⟩ (fun _ => .exc "boom") "x").logs.length ≤ 1 :=
  ⟨(c9_log_amended ⟨3, 2⟩ (fun _ => .exc "boom") "x").1 2 1 (some "boom") (by decide),
    (c9_log_amended ⟨3, 2⟩ (fun _ => .exc "boom") "x").2.1⟩

/-- C7: when the underlying retried call succeeds and the response carries
a data payload, `get_full_profile` returns a profile iff both the identity
key and the handle of the payload are non-empty; when either is empty it
returns the terminal `Invalid profile data structure` failure with no
profile. -/
theorem c7_profile_validation (cfg : RetryConfig) (attempts : Nat → AttemptResult)
    (username : String) (response : ApiResponse) (profile_data : ProfileData)
    (hcall : (make_api_call_with_retry cfg attempts username).outcome = .success response)
    (hdata : response.data = some profile_data) :
    ((profile_data.urn = "" ∨ profile_data.username = "") →
      get_full_profile cfg attempts username =
        ⟨false, none, some "Invalid profile data structure"⟩) ∧
    (get_full_profile cfg attempts username = ⟨true, some profile_data, none⟩ ↔
      (profile_data.urn ≠ "" ∧ profile_data.username ≠ "")) := by
  constructor
  · intro hbad
    simp [get_full_profile, hcall, hdata, hbad]
  · by_cases hbad : profile_data.urn = "" ∨ profile_data.username = ""
    · simp [get_full_profile, hcall, hdata, hbad]
      tauto
    · push_neg at hbad
      simp [get_full_profile, hcall, hdata, hbad]

/-- Witness for C7 at a concrete payload with an empty identity key. -/
theorem c7_profile_validation_witness :
    (make_api_call_with_retry ⟨3, 2⟩ c7wAttempts "x").outcome =
        .success ⟨true, true, true, none, some ⟨"", "x"⟩⟩ ∧
      get_full_profile ⟨3, 2⟩ c7wAttempts "x" =
        ⟨false, none, some "Invalid profile data structure"⟩ :=
  ⟨by decide,
    (c7_profile_validation ⟨3, 2⟩ c7wAttempts "x" ⟨true, true, true, none, some ⟨"", "x"⟩⟩
        ⟨"", "x"⟩ (by decide) rfl).1 (Or.inl rfl)⟩

/-- C8: the batch fetcher returns exactly one (handle, outcome) pair per
input handle, in input order, and the outcome at position i depends only on
the behaviour of the fetch for that handle — failures of sibling fetches
cannot change or suppress it. -/
theorem c8_batch_outcomes (cfg : RetryConfig) (env env2 : String → Nat → AttemptResult)
    (usernames : List String) (i : Nat) (u : String)
    (hu : usernames[i]? = some u)
    (hagree : ∀ k, env u k = env2 u k) :
    (get_full_profiles_batch cfg env usernames).length = usernames.length ∧
    (get_full_profiles_batch cfg env usernames)[i]? =
      some (u, get_full_profile cfg (env u) u) ∧
    (get_full_profiles_batch cfg env usernames)[i]? =
      (get_full_profiles_batch cfg env2 usernames)[i]? := by
  have henv : env u = env2 u := funext hagree
  refine ⟨by simp [get_full_profiles_batch], ?_, ?_⟩
  · simp [get_full_profiles_batch, hu]
  · simp [get_full_profiles_batch, hu, henv]

/-- Witness for C8 on a concrete two-handle batch. -/
theorem c8_batch_outcomes_witness :
    (["a", "other"][0]? = some "a") ∧
      (get_full_profiles_batch ⟨1, 1⟩ c8envA ["a", "other"])[0]? =
        (get_full_profiles_batch ⟨1, 1⟩ c8envB ["a", "other"])[0]? :=
  ⟨rfl, (c8_batch_outcomes ⟨1, 1⟩ c8envA c8envB ["a", "other"] 0 "a" rfl (fun _ => rfl)).2.2⟩

/-- Validation guarantee of the client used to justify the discovery
oracle abstraction: a successful `get_full_profile` only ever returns a
profile with non-empty urn and username. -/
theorem get_full_profile_valid (cfg : RetryConfig) (attempts : Nat → AttemptResult)
    (u : String) (p : ProfileData) :
    (get_full_profile cfg attempts u).profile = some p → p.urn ≠ "" ∧ p.username ≠ "" := by
  unfold get_full_profile
  cases h : (make_api_call_with_retry cfg attempts u).outcome with
  | failure e => simp
  | success r =>
    cases hd : r.data with
    | none => simp [hd]
    | some pd =>
      by_cases hb : pd.urn = "" ∨ pd.username = ""
      · simp [hd, hb]
      · push_neg at hb
        simp [hd, hb]
        rintro rfl
        exact hb

/-- `ParentRecorded` is monotone in the discovered list. -/
theorem ParentRecorded_mono {st st2 : DState} (f : Frontier)
    (hmono : ∀ x ∈ st.discovered, x ∈ st2.discovered) :
    ParentRecorded st f → ParentRecorded st2 f := by
  rintro ⟨s, hs, h1, h2⟩
  exact ⟨s, hmono s hs, h1, h2⟩

/-- Forest invariant through the result-recording loop of
`process_profile`: children recorded with the parent urn as source keep the
forest shape, and each new frontier profile has its discoverer recorded. -/
theorem recordResults_forest (parentUrn : String) (pd : Nat) :
    ∀ (results : List (String × Option ProfileData)) (st : DState),
      ForestInv st →
      (∃ s ∈ st.discovered, s.data.urn = parentUrn ∧ s.depth_level = pd) →
      ForestInv (recordResults parentUrn (pd + 1) results st).2 ∧
      (∀ x ∈ st.discovered, x ∈ (recordResults parentUrn (pd + 1) results st).2.discovered) ∧
      (∀ n ∈ (recordResults parentUrn (pd + 1) results st).1,
        ParentRecorded (recordResults parentUrn (pd + 1) results st).2 n ∧
          n.depth = pd + 1) := by
  intro results
  induction results with
  | nil =>
    intro st hf hp
    exact ⟨hf, fun x hx => hx, by simp [recordResults]⟩
  | cons head rest ih =>
    intro st hf hp
    obtain ⟨u, op⟩ := head
    cases op with
    | none => exact ih st hf hp
    | some p =>
      obtain ⟨par, hpar, hpar1, hpar2⟩ := hp
      set c : DiscRecord := ⟨p, pd + 1, parentUrn⟩ with hc
      set st1 : DState := { st with discovered := st.discovered ++ [c] } with hst1
      have hmem1 : ∀ x ∈ st.discovered, x ∈ st1.discovered := by
        intro x hx
        simp [hst1, hx]
      have hcmem : c ∈ st1.discovered := by simp [hst1]
      have hf1 : ForestInv st1 := by
        intro r hr
        rcases List.mem_append.mp hr with hr | hr
        · obtain ⟨h1, h2⟩ := hf r hr
          refine ⟨h1, fun hn => ?_⟩
          obtain ⟨s, hs, hs1, hs2⟩ := h2 hn
          exact ⟨s, hmem1 s hs, hs1, hs2⟩
        · have : r = c := by simpa using hr
          subst this
          refine ⟨fun h0 => absurd h0 (Nat.succ_ne_zero pd), fun _ => ?_⟩
          refine ⟨par, hmem1 par hpar, fun heq => ?_, hpar1⟩
          rw [heq] at hpar2
          simp [hc] at hpar2
      have hp1 : ∃ s ∈ st1.discovered, s.data.urn = parentUrn ∧ s.depth_level = pd :=
        ⟨par, hmem1 par hpar, hpar1, hpar2⟩
      obtain ⟨ihf, ihmono, ihns⟩ := ih st1 hf1 hp1
      refine ⟨ihf, ?_, ?_⟩
      · intro x hx
        exact ihmono x (hmem1 x hx)
      · intro n hn
        simp only [recordResults] at hn
        rcases List.mem_cons.mp hn with hn | hn
        · subst hn
          refine ⟨⟨c, ihmono c hcmem, rfl, rfl⟩, rfl⟩
        · exact ihns n hn

/-- Forest invariant through `process_profile`. -/
theorem processProfile_forest (o : ApiOracle) (st : DState) (f : Frontier)
    (hf : ForestInv st) (hq : ParentRecorded st f) :
    ForestInv (processProfile o st f).2 ∧
    (∀ x ∈ st.discovered, x ∈ (processProfile o st f).2.discovered) ∧
    (∀ n ∈ (processProfile o st f).1,
      ParentRecorded (processProfile o st f).2 n ∧ n.depth = f.depth + 1) := by
  unfold processProfile
  cases hsim : o.similar f.data.urn with
  | none =>
    refine ⟨?_, fun x hx => hx, by simp⟩
    intro r hr
    exact hf r hr
  | some profiles =>
    by_cases hempty : (collectToFetch (validSimilarEntries profiles) st.seen).1 = []
    · simp only [hempty]
      refine ⟨?_, fun x hx => hx, by simp⟩
      intro r hr
      exact hf r hr
    · simp only [if_neg hempty]
      have hf1 : ForestInv
          ({ st with seen := (collectToFetch (validSimilarEntries profiles) st.seen).2 }) := by
        intro r hr
        exact hf r hr
      have hp1 : ∃ s ∈ ({ st with
            seen := (collectToFetch (validSimilarEntries profiles) st.seen).2 } : DState).discovered,
          s.data.urn = f.data.urn ∧ s.depth_level = f.depth := hq
      exact recordResults_forest f.data.urn f.depth _ _ hf1 hp1

/-- Forest invariant through a whole level batch. -/
theorem processBatch_forest (o : ApiOracle) (level : Nat) :
    ∀ (batch : List Frontier) (st : DState),
      ForestInv st →
      (∀ f ∈ batch, ParentRecorded st f ∧ f.depth = level) →
      ForestInv (processBatch o batch st).2 ∧
      (∀ x ∈ st.discovered, x ∈ (processBatch o batch st).2.discovered) ∧
      (∀ n ∈ (processBatch o batch st).1,
        ParentRecorded (processBatch o batch st).2 n ∧ n.depth = level + 1) := by
  intro batch
  induction batch with
  | nil =>
    intro st hf _
    exact ⟨hf, fun x hx => hx, by simp [processBatch]⟩
  | cons f rest ih =>
    intro st hf hb
    obtain ⟨hqf, hdf⟩ := hb f (List.mem_cons_self f rest)
    obtain ⟨hf1, hmono1, hns1⟩ := processProfile_forest o st f hf hqf
    obtain ⟨hf2, hmono2, hns2⟩ := ih (processProfile o st f).2 hf1 (fun g hg =>
      ⟨ParentRecorded_mono g hmono1 (hb g (List.mem_cons_of_mem f hg)).1,
        (hb g (List.mem_cons_of_mem f hg)).2⟩)
    refine ⟨hf2, fun x hx => hmono2 x (hmono1 x hx), ?_⟩
    intro n hn
    simp only [processBatch] at hn ⊢
    rcases List.mem_append.mp hn with hn | hn
    · obtain ⟨hpn, hdn⟩ := hns1 n hn
      exact ⟨ParentRecorded_mono n hmono2 hpn, by rw [hdn, hdf]⟩
    · exact hns2 n hn

/-- Forest invariant through the level-0 recording step: seeds are stored
with depth 0 and empty source, and each batch item ends up recorded. -/
theorem recordBatch_forest :
    ∀ (batch : List Frontier) (st : DState),
      ForestInv st →
      (∀ f ∈ batch, f.depth = 0 ∧ f.source_urn = "") →
      ForestInv (recordBatch batch st) ∧
      (∀ x ∈ st.discovered, x ∈ (recordBatch batch st).discovered) ∧
      (∀ f ∈ batch, ParentRecorded (recordBatch batch st) f) ∧
      (recordBatch batch st).seen = st.seen := by
  intro batch
  induction batch with
  | nil =>
    intro st hf _
    exact ⟨hf, fun x hx => hx, by simp, rfl⟩
  | cons f rest ih =>
    intro st hf hb
    obtain ⟨hdf, hsf⟩ := hb f (List.mem_cons_self f rest)
    set c : DiscRecord := ⟨f.data, f.depth, f.source_urn⟩ with hc
    set st1 : DState := { st with discovered := st.discovered ++ [c] } with hst1
    have hmem1 : ∀ x ∈ st.discovered, x ∈ st1.discovered := by
      intro x hx
      simp [hst1, hx]
    have hcmem : c ∈ st1.discovered := by simp [hst1]
    have hf1 : ForestInv st1 := by
      intro r hr
      rcases List.mem_append.mp hr with hr | hr
      · obtain ⟨h1, h2⟩ := hf r hr
        refine ⟨h1, fun hn => ?_⟩
        obtain ⟨s, hs, hs1, hs2⟩ := h2 hn
        exact ⟨s, hmem1 s hs, hs1, hs2⟩
      · have : r = c := by simpa using hr
        subst this
        refine ⟨fun _ => hsf, fun h0 => absurd ?_ h0⟩
        simp [hc, hdf]
    obtain ⟨ihf, ihmono, ihrec, ihseen⟩ := ih st1 hf1 (fun g hg => hb g (List.mem_cons_of_mem f hg))
    refine ⟨ihf, fun x hx => ihmono x (hmem1 x hx), ?_, ihseen⟩
    intro g hg
    rcases List.mem_cons.mp hg with hg | hg
    · subst hg
      exact ⟨c, ihmono c hcmem, rfl, rfl⟩
    · exact ihrec g hg

/-- Forest invariant through the level loop, for any fuel. -/
theorem treeLoop_forest (o : ApiOracle) (maxDepth : Nat) :
    ∀ (fuel : Nat) (queue : List (Frontier × Nat)) (level : Nat) (st : DState),
      ForestInv st →
      (∀ q ∈ queue, q.2 = q.1.depth ∧ (q.2 = 0 → q.1.source_urn = "") ∧
        (q.2 ≠ 0 → ParentRecorded st q.1)) →
      ForestInv (treeLoop o maxDepth fuel queue level st) := by
  intro fuel
  induction fuel with
  | zero =>
    intro queue level st hf _
    simpa [treeLoop] using hf
  | succ n ih =>
    intro queue level st hf hq
    by_cases hqe : queue = []
    · simpa [treeLoop, hqe] using hf
    · rw [treeLoop, if_neg hqe]
      set batch := (queue.filter (fun q => q.2 = level)).map Prod.fst with hbatch
      set rest := queue.filter (fun q => ¬ q.2 = level) with hrest
      have hrestq : ∀ q ∈ rest, q ∈ queue := by
        intro q hq2
        rw [hrest] at hq2
        exact List.mem_of_mem_filter hq2
      have hbm : ∀ f ∈ batch, ∃ q, q ∈ queue ∧ q.2 = level ∧ q.1 = f := by
        intro f hf2
        rw [hbatch] at hf2
        simp only [List.mem_map, List.mem_filter, decide_eq_true_eq] at hf2
        obtain ⟨q, ⟨hq1, hq2⟩, hq3⟩ := hf2
        exact ⟨q, hq1, hq2, hq3⟩
      by_cases hbe : batch = []
      · rw [if_pos hbe]
        exact ih rest (level + 1) st hf (fun q hq2 => hq q (hrestq q hq2))
      · rw [if_neg hbe]
        by_cases hl0 : level = 0
        · subst hl0
          rw [if_pos rfl]
          have hseeds : ∀ f ∈ batch, f.depth = 0 ∧ f.source_urn = "" := by
            intro f hf2
            obtain ⟨q, hq1, hq2, hq3⟩ := hbm f hf2
            obtain ⟨e1, e2, _⟩ := hq q hq1
            constructor
            · rw [← hq3, ← e1, hq2]
            · rw [← hq3]
              exact e2 hq2
          obtain ⟨hf1, hmono1, hrec1, _⟩ := recordBatch_forest batch st hf hseeds
          by_cases hmd : maxDepth ≤ 0
          · rw [if_pos hmd]
            exact hf1
          · rw [if_neg hmd]
            have hball : ∀ f ∈ batch, ParentRecorded (recordBatch batch st) f ∧ f.depth = 0 :=
              fun f hf2 => ⟨hrec1 f hf2, (hseeds f hf2).1⟩
            obtain ⟨hf2, hmono2, hns2⟩ :=
              processBatch_forest o 0 batch (recordBatch batch st) hf1 hball
            refine ih _ 1 _ hf2 ?_
            intro q hq2
            rcases List.mem_append.mp hq2 with hq2 | hq2
            · obtain ⟨e1, e2, e3⟩ := hq q (hrestq q hq2)
              exact ⟨e1, e2, fun hne =>
                ParentRecorded_mono q.1 hmono2 (ParentRecorded_mono q.1 hmono1 (e3 hne))⟩
            · simp only [List.mem_map] at hq2
              obtain ⟨p, hp1, hp2⟩ := hq2
              obtain ⟨hpr, hpd⟩ := hns2 p hp1
              subst hp2
              refine ⟨rfl, fun h0 => absurd (h0.symm.trans hpd) (by omega), fun _ => hpr⟩
        · rw [if_neg hl0]
          by_cases hmd : maxDepth ≤ level
          · rw [if_pos hmd]
            exact hf
          · rw [if_neg hmd]
            have hball : ∀ f ∈ batch, ParentRecorded st f ∧ f.depth = level := by
              intro f hf2
              obtain ⟨q, hq1, hq2, hq3⟩ := hbm f hf2
              obtain ⟨e1, _, e3⟩ := hq q hq1
              refine ⟨?_, by rw [← hq3, ← e1, hq2]⟩
              rw [← hq3]
              exact e3 (by rw [hq2]; exact hl0)
            obtain ⟨hf2, hmono2, hns2⟩ := processBatch_forest o level batch st hf hball
            refine ih _ (level + 1) _ hf2 ?_
            intro q hq2
            rcases List.mem_append.mp hq2 with hq2 | hq2
            · obtain ⟨e1, e2, e3⟩ := hq q (hrestq q hq2)
              exact ⟨e1, e2, fun hne => ParentRecorded_mono q.1 hmono2 (e3 hne)⟩
            · simp only [List.mem_map] at hq2
              obtain ⟨p, hp1, hp2⟩ := hq2
              obtain ⟨hpr, hpd⟩ := hns2 p hp1
              subst hp2
              refine ⟨rfl, fun h0 => absurd (h0.symm.trans hpd) (by omega), fun _ => hpr⟩

/-- Behaviour of the seed-resolution loop: it does not touch the
discovered list, only grows the seen set, and produces starting profiles
with pairwise-distinct, freshly seen urns, depth 0 and empty source. -/
theorem resolveSeeds_spec (o : ApiOracle) :
    ∀ (usernames : List String) (st : DState),
      (resolveSeeds o usernames st).2.discovered = st.discovered ∧
      (∀ x ∈ st.seen, x ∈ (resolveSeeds o usernames st).2.seen) ∧
      ((resolveSeeds o usernames st).1.map (fun f => f.data.urn)).Nodup ∧
      (∀ f ∈ (resolveSeeds o usernames st).1,
        f.depth = 0 ∧ f.source_urn = "" ∧
          f.data.urn ∈ (resolveSeeds o usernames st).2.seen ∧ f.data.urn ∉ st.seen) := by
  intro usernames
  induction usernames with
  | nil =>
    intro st
    exact ⟨rfl, fun x hx => hx, by simp [resolveSeeds], by simp [resolveSeeds]⟩
  | cons username rest ih =>
    intro st
    rw [resolveSeeds]
    cases hfp : o.fullProfile username with
    | none =>
      obtain ⟨i1, i2, i3, i4⟩ := ih { st with failed_usernames := st.failed_usernames ++ [username] }
      exact ⟨i1, i2, i3, fun f hf => ⟨(i4 f hf).1, (i4 f hf).2.1, (i4 f hf).2.2.1, (i4 f hf).2.2.2⟩⟩
    | some profile_data =>
      dsimp only
      by_cases hurn : profile_data.urn ≠ ""
      · rw [if_pos hurn]
        by_cases hseen : profile_data.urn ∉ st.seen
        · rw [if_pos hseen]
          obtain ⟨i1, i2, i3, i4⟩ := ih { st with seen := profile_data.urn :: st.seen }
          have hmem : ∀ x ∈ st.seen,
              x ∈ (resolveSeeds o rest { st with seen := profile_data.urn :: st.seen }).2.seen :=
            fun x hx => i2 x (List.mem_cons_of_mem _ hx)
          refine ⟨i1, hmem, ?_, ?_⟩
          · simp only [List.map_cons]
            refine List.Nodup.cons ?_ i3
            intro hmem2
            simp only [List.mem_map] at hmem2
            obtain ⟨g, hg1, hg2⟩ := hmem2
            exact absurd (hg2 ▸ (i4 g hg1).2.2.2) (by
              intro hcon
              exact hcon (List.mem_cons_self _ _))
          · intro f hf
            rcases List.mem_cons.mp hf with hf | hf
            · subst hf
              exact ⟨rfl, rfl, i2 _ (List.mem_cons_self _ _), hseen⟩
            · obtain ⟨j1, j2, j3, j4⟩ := i4 f hf
              exact ⟨j1, j2, j3, fun hcon => j4 (List.mem_cons_of_mem _ hcon)⟩
        · rw [if_neg hseen]
          exact ih st
      · rw [if_neg hurn]
        exact ih { st with failed_usernames := st.failed_usernames ++ [username] }

/-- Forest shape of the final state of any run (helper for C2): every seed
record (`depth_level = 0`) has an empty `source_urn`, and the `source_urn`
of every non-seed record is the identity key of some other record of the
same report. -/
theorem discoverRunFuel_forest (o : ApiOracle) (usernames : List String) (depth fuel : Nat) :
    ∀ r ∈ (discoverRunFuel o usernames depth fuel).discovered,
      (r.depth_level = 0 → r.source_urn = "") ∧
      (r.depth_level ≠ 0 →
        ∃ s ∈ (discoverRunFuel o usernames depth fuel).discovered,
          s ≠ r ∧ s.data.urn = r.source_urn) := by
  have hres := resolveSeeds_spec o usernames initState
  obtain ⟨h1, _, _, h4⟩ := hres
  unfold discoverRunFuel
  by_cases hempty : (resolveSeeds o usernames initState).1 = []
  · rw [if_pos hempty]
    intro r hr
    rw [h1] at hr
    simp [initState] at hr
  · rw [if_neg hempty]
    have hf0 : ForestInv (resolveSeeds o usernames initState).2 := by
      intro r hr
      rw [h1] at hr
      simp [initState] at hr
    exact treeLoop_forest o depth (fuel) _ 0 _ hf0 (by
      intro q hq
      simp only [List.mem_map] at hq
      obtain ⟨p, hp1, hp2⟩ := hq
      obtain ⟨j1, j2, _, _⟩ := h4 p hp1
      subst hp2
      exact ⟨j1.symm, fun _ => j2, fun h0 => absurd rfl h0⟩)

/-- Behaviour of the candidate filter loop: the queued handles correspond
pointwise to a duplicate-free list of fresh, non-empty entry urns, and the
updated seen set is exactly the old one plus those urns. -/
theorem collectToFetch_spec :
    ∀ (entries : List SimilarEntry) (seen : List String),
      ∃ urns : List String,
        urns.Nodup ∧
        (∀ x ∈ urns, x ∉ seen ∧ x ≠ "") ∧
        (∀ x, x ∈ (collectToFetch entries seen).2 ↔ x ∈ urns ∨ x ∈ seen) ∧
        List.Forall₂ (fun u U => ∃ e ∈ entries, chooseUsername e = u ∧ e.urn = U)
          (collectToFetch entries seen).1 urns := by
  intro entries
  induction entries with
  | nil =>
    intro seen
    exact ⟨[], by simp, by simp, by simp [collectToFetch], by simp [collectToFetch]⟩
  | cons e rest ih =>
    intro seen
    rw [collectToFetch]
    by_cases hc : e.urn ≠ "" ∧ chooseUsername e ≠ "" ∧ e.urn ∉ seen
    · rw [if_pos hc]
      obtain ⟨urns, h1, h2, h3, h4⟩ := ih (e.urn :: seen)
      refine ⟨e.urn :: urns, ?_, ?_, ?_, ?_⟩
      · refine List.Nodup.cons ?_ h1
        intro hmem
        exact (h2 e.urn hmem).1 (List.mem_cons_self _ _)
      · intro x hx
        rcases List.mem_cons.mp hx with hx | hx
        · subst hx
          exact ⟨hc.2.2, hc.1⟩
        · obtain ⟨hx1, hx2⟩ := h2 x hx
          exact ⟨fun hcon => hx1 (List.mem_cons_of_mem _ hcon), hx2⟩
      · intro x
        dsimp only
        rw [h3 x]
        constructor
        · rintro (hx | hx)
          · exact Or.inl (List.mem_cons_of_mem _ hx)
          · rcases List.mem_cons.mp hx with hx | hx
            · exact Or.inl (hx ▸ List.mem_cons_self _ _)
            · exact Or.inr hx
        · rintro (hx | hx)
          · rcases List.mem_cons.mp hx with hx | hx
            · exact Or.inr (hx ▸ List.mem_cons_self _ _)
            · exact Or.inl hx
          · exact Or.inr (List.mem_cons_of_mem _ hx)
      · dsimp only
        refine List.Forall₂.cons ⟨e, List.mem_cons_self _ _, rfl, rfl⟩ ?_
        refine List.Forall₂.imp ?_ h4
        rintro u U ⟨g, hg1, hg2, hg3⟩
        exact ⟨g, List.mem_cons_of_mem _ hg1, hg2, hg3⟩
    · rw [if_neg hc]
      obtain ⟨urns, h1, h2, h3, h4⟩ := ih seen
      refine ⟨urns, h1, h2, h3, ?_⟩
      refine List.Forall₂.imp ?_ h4
      rintro u U ⟨g, hg1, hg2, hg3⟩
      exact ⟨g, List.mem_cons_of_mem _ hg1, hg2, hg3⟩

/-- Dedup invariant through the result-recording loop of
`process_profile`, given that each fetched profile carries the urn of the
entry it was queued for (the pointwise `Forall₂` hypothesis): record urns
stay pairwise distinct and inside the seen set, and depth levels stay
coherent. -/
theorem recordResults_ginv (parentUrn : String) (pd : Nat) :
    ∀ (results : List (String × Option ProfileData)) (urns : List String) (st : DState)
      (S : List String),
      List.Forall₂ (fun (ru : String × Option ProfileData) U =>
        ∀ p, ru.2 = some p → p.urn = U) results urns →
      urns.Nodup →
      (∀ U ∈ urns, U ∉ S ∧ U ∈ st.seen) →
      (∀ r ∈ st.discovered, r.data.urn ∈ S ∧ (r.depth_level ≠ 0 → r.source_urn ∈ S)) →
      (∀ x ∈ S, x ∈ st.seen) →
      parentUrn ∈ S →
      (∀ s ∈ st.discovered, s.data.urn = parentUrn → s.depth_level = pd) →
      GInv st →
      GInv (recordResults parentUrn (pd + 1) results st).2 ∧
      (recordResults parentUrn (pd + 1) results st).2.seen = st.seen ∧
      (∀ r ∈ (recordResults parentUrn (pd + 1) results st).2.discovered,
        r ∈ st.discovered ∨ r.data.urn ∈ urns) ∧
      (∀ x ∈ st.discovered, x ∈ (recordResults parentUrn (pd + 1) results st).2.discovered) ∧
      (∀ n ∈ (recordResults parentUrn (pd + 1) results st).1,
        n.depth = pd + 1 ∧
          n.data.urn ∈ (recordResults parentUrn (pd + 1) results st).2.seen ∧
          ∀ s ∈ (recordResults parentUrn (pd + 1) results st).2.discovered,
            s.data.urn = n.data.urn → s.depth_level = n.depth) := by
  intro results
  induction results with
  | nil =>
    intro urns st S hF _ _ _ _ _ _ hg
    cases hF
    exact ⟨hg, rfl, fun r hr => Or.inl hr, fun x hx => hx, by simp [recordResults]⟩
  | cons head rest ih =>
    intro urns st S hF hnd hurns hrecS hSseen hparS hpard hg
    obtain ⟨u, op⟩ := head
    cases hF with
    | cons hhead htail =>
      rename_i U urnsTail
      cases op with
      | none =>
        have hres := ih urnsTail st S htail (List.Nodup.of_cons hnd)
          (fun V hV => hurns V (List.mem_cons_of_mem _ hV)) hrecS hSseen hparS hpard hg
        obtain ⟨j1, j2, j3, j4, j5⟩ := hres
        exact ⟨j1, j2, fun r hr => (j3 r hr).imp id (fun h => List.mem_cons_of_mem _ h),
          j4, j5⟩
      | some p =>
        have hpU : p.urn = U := hhead p rfl
        obtain ⟨hUS, hUseen⟩ := hurns U (List.mem_cons_self _ _)
        set c : DiscRecord := ⟨p, pd + 1, parentUrn⟩ with hcdef
        set st1 : DState := { st with discovered := st.discovered ++ [c] } with hst1
        have hmem1 : ∀ x ∈ st.discovered, x ∈ st1.discovered := by
          intro x hx
          simp [hst1, hx]
        have hcmem : c ∈ st1.discovered := by simp [hst1]
        have hst1seen : st1.seen = st.seen := rfl
        have hUnotold : ∀ r ∈ st.discovered, r.data.urn ≠ U := by
          intro r hr hcon
          exact hUS (hcon ▸ (hrecS r hr).1)
        -- GInv st1
        have hg1 : GInv st1 := by
          obtain ⟨g1, g2, g3, g4⟩ := hg
          refine ⟨?_, ?_, ?_, ?_⟩
          · unfold discoveredUrns at g1 ⊢
            rw [hst1]
            simp only [List.map_append, List.map_cons, List.map_nil]
            rw [List.nodup_append]
            refine ⟨g1, List.nodup_singleton _, ?_⟩
            intro a ha hb
            simp only [List.mem_singleton] at hb
            subst hb
            simp only [List.mem_map] at ha
            obtain ⟨r, hr, hru⟩ := ha
            refine hUnotold r hr ?_
            rw [hru]
            exact hpU
          · intro r hr
            rcases List.mem_append.mp hr with hr | hr
            · exact g2 r hr
            · have : r = c := by simpa using hr
              subst this
              rw [hcdef]
              exact hpU ▸ hUseen
          · intro r hr hn
            rcases List.mem_append.mp hr with hr | hr
            · exact g3 r hr hn
            · have : r = c := by simpa using hr
              subst this
              exact hSseen _ hparS
          · intro r hr hn s hs hus
            rcases List.mem_append.mp hr with hr | hr
            · rcases List.mem_append.mp hs with hs | hs
              · exact g4 r hr hn s hs hus
              · have : s = c := by simpa using hs
                subst this
                have : r.source_urn ∈ S := (hrecS r hr).2 hn
                rw [← hus] at this
                rw [hcdef] at this
                simp only at this
                exact absurd (hpU ▸ this) hUS
            · have : r = c := by simpa using hr
              subst this
              rcases List.mem_append.mp hs with hs | hs
              · have := hpard s hs hus
                rw [hcdef]
                simp only
                omega
              · have : s = c := by simpa using hs
                subst this
                rw [hcdef] at hus
                simp only at hus
                rw [hpU] at hus
                exact absurd (hus ▸ hparS) hUS
        have hres := ih urnsTail st1 (U :: S) htail (List.Nodup.of_cons hnd)
          (fun V hV => ⟨fun hcon => by
              rcases List.mem_cons.mp hcon with hcon | hcon
              · exact (List.nodup_cons.mp hnd).1 (hcon ▸ hV)
              · exact (hurns V (List.mem_cons_of_mem _ hV)).1 hcon,
            (hurns V (List.mem_cons_of_mem _ hV)).2⟩)
          (by
            intro r hr
            rcases List.mem_append.mp hr with hr | hr
            · obtain ⟨k1, k2⟩ := hrecS r hr
              exact ⟨List.mem_cons_of_mem _ k1, fun hn => List.mem_cons_of_mem _ (k2 hn)⟩
            · have : r = c := by simpa using hr
              subst this
              rw [hcdef]
              refine ⟨by simp only; rw [hpU]; exact List.mem_cons_self _ _, ?_⟩
              intro _
              exact List.mem_cons_of_mem _ hparS)
          (by
            intro x hx
            rcases List.mem_cons.mp hx with hx | hx
            · exact hx ▸ hUseen
            · exact hSseen x hx)
          (List.mem_cons_of_mem _ hparS)
          (by
            intro s hs hsu
            rcases List.mem_append.mp hs with hs | hs
            · exact hpard s hs hsu
            · have : s = c := by simpa using hs
              subst this
              rw [hcdef] at hsu
              simp only at hsu
              rw [hpU] at hsu
              exact absurd (hsu ▸ hparS) hUS)
          hg1
        obtain ⟨j1, j2, j3, j4, j5⟩ := hres
        simp only [recordResults]
        refine ⟨j1, j2.trans hst1seen, ?_, ?_, ?_⟩
        · intro r hr
          rcases j3 r hr with hr2 | hr2
          · rcases List.mem_append.mp hr2 with hr3 | hr3
            · exact Or.inl hr3
            · have hrc : r = c := by simpa using hr3
              subst hrc
              refine Or.inr ?_
              show p.urn ∈ U :: urnsTail
              rw [hpU]
              exact List.mem_cons_self _ _
          · exact Or.inr (List.mem_cons_of_mem _ hr2)
        · intro x hx
          exact j4 x (hmem1 x hx)
        · intro n hn
          rcases List.mem_cons.mp hn with hn | hn
          · subst hn
            refine ⟨rfl, ?_, ?_⟩
            · show p.urn ∈ (recordResults parentUrn (pd + 1) rest st1).2.seen
              rw [j2.trans hst1seen, hpU]
              exact hUseen
            · intro s hs hsu
              have hsu2 : s.data.urn = p.urn := hsu
              rcases j3 s hs with hs2 | hs2
              · rcases List.mem_append.mp hs2 with hs3 | hs3
                · exact absurd (hsu2.trans hpU) (hUnotold s hs3)
                · have hsc : s = c := by simpa using hs3
                  subst hsc
                  rfl
              · exfalso
                rw [hsu2, hpU] at hs2
                exact (List.nodup_cons.mp hnd).1 hs2
          · exact j5 n hn

/-- Dedup invariant through `process_profile` under key consistency. -/
theorem processProfile_ginv (o : ApiOracle) (st : DState) (f : Frontier)
    (hc : UrnConsistent o) (hg : GInv st) (hq : QOk st f) :
    GInv (processProfile o st f).2 ∧
    (∀ x ∈ st.seen, x ∈ (processProfile o st f).2.seen) ∧
    (∀ r ∈ (processProfile o st f).2.discovered, r ∈ st.discovered ∨ r.data.urn ∉ st.seen) ∧
    (∀ x ∈ st.discovered, x ∈ (processProfile o st f).2.discovered) ∧
    (∀ n ∈ (processProfile o st f).1, n.depth = f.depth + 1 ∧ QOk (processProfile o st f).2 n) := by
  unfold processProfile
  cases hsim : o.similar f.data.urn with
  | none =>
    exact ⟨hg, fun x hx => hx, fun r hr => Or.inl hr, fun x hx => hx, by simp⟩
  | some profiles =>
    obtain ⟨urns, k1, k2, k3, k4⟩ := collectToFetch_spec (validSimilarEntries profiles) st.seen
    set st1 : DState :=
      { st with seen := (collectToFetch (validSimilarEntries profiles) st.seen).2 } with hst1
    have hseenmono : ∀ x ∈ st.seen, x ∈ st1.seen := by
      intro x hx
      exact (k3 x).mpr (Or.inr hx)
    have hg1 : GInv st1 := by
      obtain ⟨g1, g2, g3, g4⟩ := hg
      exact ⟨g1, fun r hr => hseenmono _ (g2 r hr), fun r hr hn => hseenmono _ (g3 r hr hn), g4⟩
    by_cases hempty : (collectToFetch (validSimilarEntries profiles) st.seen).1 = []
    · simp only [hempty]
      exact ⟨hg1, hseenmono, fun r hr => Or.inl hr, fun x hx => hx, by simp⟩
    · simp only [if_neg hempty]
      -- the Forall₂ consistency over the results list
      have hF : List.Forall₂ (fun (ru : String × Option ProfileData) U =>
          ∀ p, ru.2 = some p → p.urn = U)
          ((collectToFetch (validSimilarEntries profiles) st.seen).1.map
            (fun u => (u, o.fullProfile u))) urns := by
        rw [List.forall₂_map_left_iff]
        refine List.Forall₂.imp ?_ k4
        rintro u U ⟨e, he, heq, hurn⟩ p hp
        have hevalid := List.mem_filter.mp he
        have := hc f.data.urn profiles hsim e hevalid.1 p (by rw [heq]; exact hp)
        rw [this, hurn]
      have hurnsmem : ∀ U ∈ urns, U ∉ st.seen ∧ U ∈ st1.seen := by
        intro U hU
        exact ⟨(k2 U hU).1, (k3 U).mpr (Or.inl hU)⟩
      have hrecS : ∀ r ∈ st1.discovered, r.data.urn ∈ st.seen ∧
          (r.depth_level ≠ 0 → r.source_urn ∈ st.seen) := by
        intro r hr
        exact ⟨hg.2.1 r hr, fun hn => hg.2.2.1 r hr hn⟩
      obtain ⟨j1, j2, j3, j4, j5⟩ := recordResults_ginv f.data.urn f.depth _ urns st1 st.seen
        hF k1 hurnsmem hrecS hseenmono hq.1 hq.2 hg1
      refine ⟨j1, ?_, ?_, j4, ?_⟩
      · intro x hx
        rw [j2]
        exact hseenmono x hx
      · intro r hr
        rcases j3 r hr with hr2 | hr2
        · exact Or.inl hr2
        · exact Or.inr (k2 _ hr2).1
      · intro n hn
        obtain ⟨m1, m2, m3⟩ := j5 n hn
        exact ⟨m1, m2, m3⟩

/-- Frontier coherence survives steps that only add fresh-urn records and
grow the seen set. -/
theorem QOk_preserved {st st2 : DState} (f : Frontier)
    (hseen : ∀ x ∈ st.seen, x ∈ st2.seen)
    (hfresh : ∀ r ∈ st2.discovered, r ∈ st.discovered ∨ r.data.urn ∉ st.seen)
    (hq : QOk st f) : QOk st2 f := by
  refine ⟨hseen _ hq.1, ?_⟩
  intro s hs heq
  rcases hfresh s hs with hs2 | hs2
  · exact hq.2 s hs2 heq
  · exact absurd (heq ▸ hq.1) hs2

/-- Dedup invariant through a whole level batch under key consistency. -/
theorem processBatch_ginv (o : ApiOracle) (level : Nat) (hc : UrnConsistent o) :
    ∀ (batch : List Frontier) (st : DState),
      GInv st →
      (∀ f ∈ batch, QOk st f ∧ f.depth = level) →
      GInv (processBatch o batch st).2 ∧
      (∀ x ∈ st.seen, x ∈ (processBatch o batch st).2.seen) ∧
      (∀ r ∈ (processBatch o batch st).2.discovered,
        r ∈ st.discovered ∨ r.data.urn ∉ st.seen) ∧
      (∀ x ∈ st.discovered, x ∈ (processBatch o batch st).2.discovered) ∧
      (∀ n ∈ (processBatch o batch st).1, n.depth = level + 1 ∧ QOk (processBatch o batch st).2 n) := by
  intro batch
  induction batch with
  | nil =>
    intro st hg _
    exact ⟨hg, fun x hx => hx, fun r hr => Or.inl hr, fun x hx => hx, by simp [processBatch]⟩
  | cons f rest ih =>
    intro st hg hb
    obtain ⟨hqf, hdf⟩ := hb f (List.mem_cons_self f rest)
    obtain ⟨p1, p2, p3, p4, p5⟩ := processProfile_ginv o st f hc hg hqf
    obtain ⟨q1, q2, q3, q4, q5⟩ := ih (processProfile o st f).2 p1 (fun g hg2 =>
      ⟨QOk_preserved g p2 p3 (hb g (List.mem_cons_of_mem f hg2)).1,
        (hb g (List.mem_cons_of_mem f hg2)).2⟩)
    refine ⟨q1, fun x hx => q2 x (p2 x hx), ?_, fun x hx => q4 x (p4 x hx), ?_⟩
    · intro r hr
      rcases q3 r hr with hr2 | hr2
      · rcases p3 r hr2 with hr3 | hr3
        · exact Or.inl hr3
        · exact Or.inr hr3
      · exact Or.inr (fun hcon => hr2 (p2 _ hcon))
    · intro n hn
      simp only [processBatch] at hn ⊢
      rcases List.mem_append.mp hn with hn | hn
      · obtain ⟨m1, m2⟩ := p5 n hn
        refine ⟨by rw [m1, hdf], QOk_preserved n q2 q3 m2⟩
      · exact q5 n hn

/-- Dedup invariant through the level-0 recording step. -/
theorem recordBatch_ginv :
    ∀ (batch : List Frontier) (st : DState),
      GInv st →
      (∀ s ∈ st.discovered, s.depth_level = 0) →
      ((discoveredUrns st ++ batch.map (fun f => f.data.urn)).Nodup) →
      (∀ f ∈ batch, f.depth = 0 ∧ f.data.urn ∈ st.seen) →
      GInv (recordBatch batch st) ∧
      (recordBatch batch st).seen = st.seen ∧
      (∀ s ∈ (recordBatch batch st).discovered, s.depth_level = 0) ∧
      (∀ x ∈ st.discovered, x ∈ (recordBatch batch st).discovered) := by
  intro batch
  induction batch with
  | nil =>
    intro st hg hd _ _
    exact ⟨hg, rfl, hd, fun x hx => hx⟩
  | cons f rest ih =>
    intro st hg hd hnd hb
    obtain ⟨hdf, hsf⟩ := hb f (List.mem_cons_self f rest)
    set c : DiscRecord := ⟨f.data, f.depth, f.source_urn⟩ with hcdef
    set st1 : DState := { st with discovered := st.discovered ++ [c] } with hst1
    have hdu1 : discoveredUrns st1 = discoveredUrns st ++ [f.data.urn] := by
      unfold discoveredUrns
      rw [hst1]
      simp
    have hnd1 : (discoveredUrns st1 ++ rest.map (fun f => f.data.urn)).Nodup := by
      rw [hdu1, List.append_assoc, List.singleton_append]
      simpa using hnd
    have hg1 : GInv st1 := by
      obtain ⟨g1, g2, g3, g4⟩ := hg
      refine ⟨?_, ?_, ?_, ?_⟩
      · rw [hdu1]
        have h2 := hnd1
        rw [hdu1] at h2
        exact List.Nodup.of_append_left h2
      · intro r hr
        rcases List.mem_append.mp hr with hr | hr
        · exact g2 r hr
        · have : r = c := by simpa using hr
          subst this
          exact hsf
      · intro r hr hn
        rcases List.mem_append.mp hr with hr | hr
        · exact g3 r hr hn
        · have : r = c := by simpa using hr
          subst this
          exact absurd (by rw [hcdef]; exact hdf) hn
      · intro r hr hn
        rcases List.mem_append.mp hr with hr | hr
        · exact absurd (hd r hr) hn
        · have : r = c := by simpa using hr
          subst this
          exact absurd (by rw [hcdef]; exact hdf) hn
    have hd1 : ∀ s ∈ st1.discovered, s.depth_level = 0 := by
      intro s hs
      rcases List.mem_append.mp hs with hs | hs
      · exact hd s hs
      · have : s = c := by simpa using hs
        subst this
        rw [hcdef]
        exact hdf
    obtain ⟨j1, j2, j3, j4⟩ := ih st1 hg1 hd1 hnd1
      (fun g hg2 => hb g (List.mem_cons_of_mem f hg2))
    exact ⟨j1, j2, j3, fun x hx => j4 x (by simp [hst1, hx])⟩

/-- Dedup invariant through the level loop, for any fuel, under key
consistency. -/
theorem treeLoop_ginv (o : ApiOracle) (maxDepth : Nat) (hc : UrnConsistent o) :
    ∀ (fuel : Nat) (queue : List (Frontier × Nat)) (level : Nat) (st : DState),
      GInv st →
      (∀ q ∈ queue, q.2 = q.1.depth ∧ QOk st q.1) →
      (level = 0 → st.discovered = [] ∧
        ((queue.map (fun q => q.1.data.urn)).Nodup) ∧ ∀ q ∈ queue, q.1.depth = 0) →
      GInv (treeLoop o maxDepth fuel queue level st) := by
  intro fuel
  induction fuel with
  | zero =>
    intro queue level st hg _ _
    simpa [treeLoop] using hg
  | succ n ih =>
    intro queue level st hg hq h0
    by_cases hqe : queue = []
    · simpa [treeLoop, hqe] using hg
    · rw [treeLoop, if_neg hqe]
      set batch := (queue.filter (fun q => q.2 = level)).map Prod.fst with hbatch
      set rest := queue.filter (fun q => ¬ q.2 = level) with hrest
      have hrestq : ∀ q ∈ rest, q ∈ queue := by
        intro q hq2
        rw [hrest] at hq2
        exact List.mem_of_mem_filter hq2
      have hbm : ∀ f ∈ batch, ∃ q, q ∈ queue ∧ q.2 = level ∧ q.1 = f := by
        intro f hf2
        rw [hbatch] at hf2
        simp only [List.mem_map, List.mem_filter, decide_eq_true_eq] at hf2
        obtain ⟨q, ⟨hq1, hq2⟩, hq3⟩ := hf2
        exact ⟨q, hq1, hq2, hq3⟩
      by_cases hbe : batch = []
      · rw [if_pos hbe]
        refine ih rest (level + 1) st hg (fun q hq2 => hq q (hrestq q hq2)) ?_
        intro hcon
        exact absurd hcon (Nat.succ_ne_zero level)
      · rw [if_neg hbe]
        by_cases hl0 : level = 0
        · subst hl0
          rw [if_pos rfl]
          obtain ⟨hd0, hnd0, hdep0⟩ := h0 rfl
          have hbnodup : (discoveredUrns st ++ batch.map (fun f => f.data.urn)).Nodup := by
            unfold discoveredUrns
            rw [hd0]
            simp only [List.map_nil, List.nil_append]
            rw [hbatch, List.map_map]
            have hsub : List.Sublist (queue.filter (fun q => decide (q.2 = 0))) queue :=
              List.filter_sublist _
            exact hnd0.sublist (hsub.map _)
          have hbprops : ∀ f ∈ batch, f.depth = 0 ∧ f.data.urn ∈ st.seen := by
            intro f hf2
            obtain ⟨q, hq1, _, hq3⟩ := hbm f hf2
            exact ⟨hq3 ▸ hdep0 q hq1, hq3 ▸ (hq q hq1).2.1⟩
          have hall0 : ∀ s ∈ st.discovered, s.depth_level = 0 := by
            rw [hd0]
            intro s hs
            simp at hs
          obtain ⟨j1, j2, j3, j4⟩ := recordBatch_ginv batch st hg hall0 hbnodup hbprops
          by_cases hmd : maxDepth ≤ 0
          · rw [if_pos hmd]
            exact j1
          · rw [if_neg hmd]
            have hqok1 : ∀ q ∈ queue, q.2 = q.1.depth ∧ QOk (recordBatch batch st) q.1 := by
              intro q hq2
              refine ⟨(hq q hq2).1, ?_⟩
              refine ⟨by rw [j2]; exact (hq q hq2).2.1, ?_⟩
              intro s hs hsu
              rw [j3 s hs, hdep0 q hq2]
            have hbq : ∀ f ∈ batch, QOk (recordBatch batch st) f ∧ f.depth = 0 := by
              intro f hf2
              obtain ⟨q, hq1, _, hq3⟩ := hbm f hf2
              exact ⟨hq3 ▸ (hqok1 q hq1).2, (hbprops f hf2).1⟩
            obtain ⟨p1, p2, p3, p4, p5⟩ := processBatch_ginv o 0 hc batch (recordBatch batch st) j1 hbq
            refine ih _ 1 _ p1 ?_ (fun hcon => absurd hcon one_ne_zero)
            intro q hq2
            rcases List.mem_append.mp hq2 with hq2 | hq2
            · refine ⟨(hq q (hrestq q hq2)).1, ?_⟩
              exact QOk_preserved q.1 p2 p3 (hqok1 q (hrestq q hq2)).2
            · simp only [List.mem_map] at hq2
              obtain ⟨p, hp1, hp2⟩ := hq2
              subst hp2
              exact ⟨rfl, (p5 p hp1).2⟩
        · rw [if_neg hl0]
          by_cases hmd : maxDepth ≤ level
          · rw [if_pos hmd]
            exact hg
          · rw [if_neg hmd]
            have hbq : ∀ f ∈ batch, QOk st f ∧ f.depth = level := by
              intro f hf2
              obtain ⟨q, hq1, hq2, hq3⟩ := hbm f hf2
              refine ⟨hq3 ▸ (hq q hq1).2, ?_⟩
              rw [← hq3, ← (hq q hq1).1, hq2]
            obtain ⟨p1, p2, p3, p4, p5⟩ := processBatch_ginv o level hc batch st hg hbq
            refine ih _ (level + 1) _ p1 ?_ (fun hcon => absurd hcon (Nat.succ_ne_zero level))
            intro q hq2
            rcases List.mem_append.mp hq2 with hq2 | hq2
            · refine ⟨(hq q (hrestq q hq2)).1, ?_⟩
              exact QOk_preserved q.1 p2 p3 (hq q (hrestq q hq2)).2
            · simp only [List.mem_map] at hq2
              obtain ⟨p, hp1, hp2⟩ := hq2
              subst hp2
              exact ⟨rfl, (p5 p hp1).2⟩

/-- Dedup invariant of the final state of any run under key
consistency. -/
theorem discoverRunFuel_ginv (o : ApiOracle) (usernames : List String) (depth fuel : Nat)
    (hc : UrnConsistent o) : GInv (discoverRunFuel o usernames depth fuel) := by
  obtain ⟨h1, _, h3, h4⟩ := resolveSeeds_spec o usernames initState
  have hdempty : (resolveSeeds o usernames initState).2.discovered = [] := by
    rw [h1]
    rfl
  have hgseed : GInv (resolveSeeds o usernames initState).2 := by
    refine ⟨?_, ?_, ?_, ?_⟩
    · unfold discoveredUrns
      rw [hdempty]
      simp
    · rw [hdempty]
      intro r hr
      simp at hr
    · rw [hdempty]
      intro r hr
      simp at hr
    · rw [hdempty]
      intro r hr
      simp at hr
  unfold discoverRunFuel
  by_cases hempty : (resolveSeeds o usernames initState).1 = []
  · rw [if_pos hempty]
    exact hgseed
  · rw [if_neg hempty]
    refine treeLoop_ginv o depth hc fuel _ 0 _ hgseed ?_ ?_
    · intro q hq
      simp only [List.mem_map] at hq
      obtain ⟨p, hp1, hp2⟩ := hq
      obtain ⟨j1, _, j3, _⟩ := h4 p hp1
      subst hp2
      refine ⟨j1.symm, j3, ?_⟩
      intro s hs
      rw [hdempty] at hs
      simp at hs
    · intro _
      refine ⟨hdempty, ?_, ?_⟩
      · rw [List.map_map]
        exact h3
      · intro q hq
        simp only [List.mem_map] at hq
        obtain ⟨p, hp1, hp2⟩ := hq
        subst hp2
        exact (h4 p hp1).1

/-- C1 amended: provided every full profile fetched for a queued similar-list
candidate carries the same identity key as that candidate entry
(`UrnConsistent`), no two records of a completed or interrupted run share an
identity key, and every record key is in the seen-key set of the run. -/
theorem c1_dedup_amended (o : ApiOracle) (usernames : List String) (depth fuel : Nat)
    (hc : UrnConsistent o) :
    ((discoverRunFuel o usernames depth fuel).discovered.map (fun r => r.data.urn)).Nodup ∧
    ∀ r ∈ (discoverRunFuel o usernames depth fuel).discovered,
      r.data.urn ∈ (discoverRunFuel o usernames depth fuel).seen := by
  obtain ⟨g1, g2, _, _⟩ := discoverRunFuel_ginv o usernames depth fuel hc
  exact ⟨g1, g2⟩

/-- C3 amended: under the same key-consistency hypothesis, every non-seed
record has depth level one more than the depth level of any record carrying
its source key (the unique such record, by C1). -/
theorem c3_depth_amended (o : ApiOracle) (usernames : List String) (depth fuel : Nat)
    (hc : UrnConsistent o) :
    ∀ r ∈ (discoverRunFuel o usernames depth fuel).discovered, r.depth_level ≠ 0 →
      ∀ s ∈ (discoverRunFuel o usernames depth fuel).discovered,
        s.data.urn = r.source_urn → r.depth_level = s.depth_level + 1 := by
  obtain ⟨_, _, _, g4⟩ := discoverRunFuel_ginv o usernames depth fuel hc
  exact g4

/-- C1 counterexample: seeding from `a` at depth 1, one frontier node
returns two similar entries with distinct unseen urns whose full profiles
both carry urn `V`; the run records urn `V` twice and `V` is not in the
seen-key set, falsifying both halves of the claim. -/
theorem c1_dedup_counterexample :
    (discoverState c1cexOracle ["a"] 1).discovered.map (fun r => r.data.urn) = ["A", "V", "V"] ∧
      ¬ ((discoverState c1cexOracle ["a"] 1).discovered.map (fun r => r.data.urn)).Nodup ∧
      (⟨⟨"V", "b"⟩, 1, "A"⟩ : DiscRecord) ∈ (discoverState c1cexOracle ["a"] 1).discovered ∧
      "V" ∉ (discoverState c1cexOracle ["a"] 1).seen := by
  refine ⟨by decide, by decide, by decide, by decide⟩

/-- The C1 witness oracle satisfies the key-consistency hypothesis. -/
theorem c1wOracle_consistent : UrnConsistent c1wOracle := by
  intro urn entries hsim e he p hp
  unfold c1wOracle c1wSim at hsim
  simp only at hsim
  split at hsim
  · cases hsim
    simp only [List.mem_singleton] at he
    subst he
    have heval : c1wOracle.fullProfile (chooseUsername ⟨"u1", "1", "b", ""⟩) =
        some ⟨"u1", "b"⟩ := by decide
    rw [heval] at hp
    injection hp with h
    subst h
    decide
  · cases hsim
    simp at he

/-- Witness for the amended C1 on a concrete key-consistent run. -/
theorem c1_dedup_amended_witness :
    ((discoverRunFuel c1wOracle ["a"] 1 2).discovered.map (fun r => r.data.urn)).Nodup :=
  (c1_dedup_amended c1wOracle ["a"] 1 2 c1wOracle_consistent).1

/-- C3 counterexample: the report of a depth-2 run contains record
(B, depth 1, source S) while a later duplicate record of urn S sits at depth
2, so the record carrying its source key does not sit one level below it. -/
theorem c3_depth_counterexample :
    (⟨⟨"B", "b"⟩, 1, "S"⟩ : DiscRecord) ∈ (discoverState c3cexOracle ["a"] 2).discovered ∧
      (⟨⟨"S", "c"⟩, 2, "B"⟩ : DiscRecord) ∈ (discoverState c3cexOracle ["a"] 2).discovered ∧
      (⟨⟨"S", "c"⟩, 2, "B"⟩ : DiscRecord).data.urn =
        (⟨⟨"B", "b"⟩, 1, "S"⟩ : DiscRecord).source_urn ∧
      (⟨⟨"B", "b"⟩, 1, "S"⟩ : DiscRecord).depth_level ≠ 0 ∧
      (⟨⟨"B", "b"⟩, 1, "S"⟩ : DiscRecord).depth_level ≠
        (⟨⟨"S", "c"⟩, 2, "B"⟩ : DiscRecord).depth_level + 1 := by
  refine ⟨by decide, by decide, by decide, by decide, by decide⟩

/-- The C3 witness oracle satisfies the key-consistency hypothesis. -/
theorem c3wOracle_consistent : UrnConsistent c3wOracle := by
  intro urn entries hsim e he p hp
  unfold c3wOracle c3wSim at hsim
  simp only at hsim
  split at hsim
  · cases hsim
    simp only [List.mem_singleton] at he
    subst he
    have heval : c3wOracle.fullProfile (chooseUsername ⟨"u1", "1", "b", ""⟩) =
        some ⟨"u1", "b"⟩ := by decide
    rw [heval] at hp
    injection hp with h
    subst h
    decide
  · cases hsim
    simp at he

/-- Witness for the amended C3 on a concrete key-consistent run. -/
theorem c3_depth_amended_witness :
    (⟨⟨"u1", "b"⟩, 1, "A"⟩ : DiscRecord) ∈ (discoverRunFuel c3wOracle ["a"] 1 2).discovered ∧
      (⟨⟨"A", "a"⟩, 0, ""⟩ : DiscRecord) ∈ (discoverRunFuel c3wOracle ["a"] 1 2).discovered ∧
      (⟨⟨"u1", "b"⟩, 1, "A"⟩ : DiscRecord).depth_level =
        (⟨⟨"A", "a"⟩, 0, ""⟩ : DiscRecord).depth_level + 1 :=
  ⟨by decide, by decide,
    c3_depth_amended c3wOracle ["a"] 1 2 c3wOracle_consistent ⟨⟨"u1", "b"⟩, 1, "A"⟩ (by decide)
      (by decide) ⟨⟨"A", "a"⟩, 0, ""⟩ (by decide) (by decide)⟩

/-- C10: for a non-empty export, a string is a CSV column iff some record
has a flattened value at that key that is truthy (non-empty in the Python
sense: nonempty string, true boolean, nonzero number); keys falsy across
every record are omitted. -/
theorem c10_csv_columns (profiles : List RichProfile) (k : String) (fns : List String)
    (h : export_to_csv profiles = some fns) :
    k ∈ fns ↔ ∃ p ∈ profiles, ∃ v, flatGet (flatten_profile p) k = some v ∧ v.truthy = true := by
  unfold export_to_csv at h
  by_cases he : profiles = []
  · rw [if_pos he] at h
    cases h
  · rw [if_neg he] at h
    have hne2 : ¬ profiles.map flatten_profile = [] := by simp [he]
    rw [if_neg hne2] at h
    injection h with h
    subst h
    unfold csvFieldnames
    rw [(List.perm_insertionSort _ _).mem_iff, List.mem_filter]
    constructor
    · rintro ⟨_, hany⟩
      rw [List.any_eq_true] at hany
      obtain ⟨fp, hfp, htr⟩ := hany
      simp only [List.mem_map] at hfp
      obtain ⟨p, hp, hfpp⟩ := hfp
      subst hfpp
      unfold flatGetTruthy at htr
      cases hv : flatGet (flatten_profile p) k with
      | none =>
        rw [hv] at htr
        cases htr
      | some v =>
        rw [hv] at htr
        exact ⟨p, hp, v, hv, htr⟩
    · rintro ⟨p, hp, v, hv, htv⟩
      constructor
      · rw [List.mem_dedup, List.mem_flatten]
        refine ⟨(flatten_profile p).map Prod.fst, ?_, ?_⟩
        · simp only [List.mem_map]
          exact ⟨flatten_profile p, ⟨p, hp, rfl⟩, rfl⟩
        · unfold flatGet at hv
          cases hf : (flatten_profile p).find? (fun kv => kv.1 = k) with
          | none =>
            rw [hf] at hv
            cases hv
          | some kv =>
            have hkv1 : kv.1 = k := by
              have := List.find?_some hf
              simpa using this
            have hmem := List.mem_of_find?_eq_some hf
            rw [List.mem_map]
            exact ⟨kv, hmem, hkv1⟩
      · rw [List.any_eq_true]
        refine ⟨flatten_profile p, ?_, ?_⟩
        · simp only [List.mem_map]
          exact ⟨p, hp, rfl⟩
        · unfold flatGetTruthy
          rw [hv]
          exact htv

/-- Witness for C10 on a concrete one-record export. -/
theorem c10_csv_columns_witness :
    export_to_csv [c10p] = some (csvFieldnames [c10p]) ∧
      csvFieldnames [c10p] = ["isPremium", "username"] ∧
      ("username" ∈ csvFieldnames [c10p] ↔
        ∃ p ∈ [c10p], ∃ v, flatGet (flatten_profile p) "username" = some v ∧ v.truthy = true) :=
  ⟨by decide, by decide,
    c10_csv_columns [c10p] "username" (csvFieldnames [c10p]) (by decide)⟩

/-- C2 counterexample: in a reachable depth-2 run the non-seed record
(B, depth 1, source S) has two distinct records of the same report carrying
its source key S — the seed (S, depth 0) and the duplicate (S, depth 2) — so
there is not exactly one discoverer per non-seed record and the records do
not form a forest. -/
theorem c2_forest_counterexample :
    (⟨⟨"B", "b"⟩, 1, "S"⟩ : DiscRecord) ∈ (discoverState c2cexOracle ["a"] 2).discovered ∧
      (⟨⟨"B", "b"⟩, 1, "S"⟩ : DiscRecord).depth_level ≠ 0 ∧
      (⟨⟨"S", "a"⟩, 0, ""⟩ : DiscRecord) ∈ (discoverState c2cexOracle ["a"] 2).discovered ∧
      (⟨⟨"S", "c"⟩, 2, "B"⟩ : DiscRecord) ∈ (discoverState c2cexOracle ["a"] 2).discovered ∧
      (⟨⟨"S", "a"⟩, 0, ""⟩ : DiscRecord) ≠ (⟨⟨"S", "c"⟩, 2, "B"⟩ : DiscRecord) ∧
      (⟨⟨"S", "a"⟩, 0, ""⟩ : DiscRecord).data.urn =
        (⟨⟨"B", "b"⟩, 1, "S"⟩ : DiscRecord).source_urn ∧
      (⟨⟨"S", "c"⟩, 2, "B"⟩ : DiscRecord).data.urn =
        (⟨⟨"B", "b"⟩, 1, "S"⟩ : DiscRecord).source_urn := by
  refine ⟨by decide, by decide, by decide, by decide, by decide, by decide, by decide⟩

/-- The C2 witness oracle satisfies the key-consistency hypothesis. -/
theorem c2wOracle_consistent : UrnConsistent c2wOracle := by
  intro urn entries hsim e he p hp
  unfold c2wOracle c2wSim at hsim
  simp only at hsim
  split at hsim
  · cases hsim
    simp only [List.mem_singleton] at he
    subst he
    have heval : c2wOracle.fullProfile (chooseUsername ⟨"u1", "1", "b", ""⟩) =
        some ⟨"u1", "b"⟩ := by decide
    rw [heval] at hp
    injection hp with h
    subst h
    decide
  · cases hsim
    simp at he

/-- C2 amended: in every completed or interrupted run, seed records
(`depth_level = 0`) have an empty `source_urn` and the `source_urn` of every
non-seed record is the identity key of some other record of the same report;
moreover, under the key-consistency hypothesis of C1 (each fetched full
profile carries the key of the similar-list entry that queued it) that other
record is unique — exactly one record of the report carries the source key,
so the records form a forest with one discoverer per non-seed record.
Without the hypothesis, duplicate keys can give a non-seed record two
records carrying its source key. -/
theorem c2_forest_amended (o : ApiOracle) (usernames : List String) (depth fuel : Nat) :
    (∀ r ∈ (discoverRunFuel o usernames depth fuel).discovered,
      (r.depth_level = 0 → r.source_urn = "") ∧
      (r.depth_level ≠ 0 →
        ∃ s ∈ (discoverRunFuel o usernames depth fuel).discovered,
          s ≠ r ∧ s.data.urn = r.source_urn)) ∧
    (UrnConsistent o →
      ∀ r ∈ (discoverRunFuel o usernames depth fuel).discovered, r.depth_level ≠ 0 →
        ∃ s ∈ (discoverRunFuel o usernames depth fuel).discovered,
          s ≠ r ∧ s.data.urn = r.source_urn ∧
          ∀ t ∈ (discoverRunFuel o usernames depth fuel).discovered,
            t.data.urn = r.source_urn → t = s) := by
  refine ⟨discoverRunFuel_forest o usernames depth fuel, ?_⟩
  intro hc r hr hne
  obtain ⟨s, hs, hsr, hsu⟩ := (discoverRunFuel_forest o usernames depth fuel r hr).2 hne
  refine ⟨s, hs, hsr, hsu, ?_⟩
  intro t ht htu
  have hnd := (discoverRunFuel_ginv o usernames depth fuel hc).1
  unfold discoveredUrns at hnd
  exact List.inj_on_of_nodup_map hnd ht hs (htu.trans hsu.symm)

/-- Witness for the amended C2 on a concrete key-consistent run. -/
theorem c2_forest_amended_witness :
    (⟨⟨"u1", "b"⟩, 1, "A"⟩ : DiscRecord) ∈ (discoverRunFuel c2wOracle ["a"] 1 2).discovered ∧
      (∃ s ∈ (discoverRunFuel c2wOracle ["a"] 1 2).discovered,
        s ≠ (⟨⟨"u1", "b"⟩, 1, "A"⟩ : DiscRecord) ∧ s.data.urn = "A" ∧
        ∀ t ∈ (discoverRunFuel c2wOracle ["a"] 1 2).discovered, t.data.urn = "A" → t = s) :=
  ⟨by decide,
    (c2_forest_amended c2wOracle ["a"] 1 2).2 c2wOracle_consistent ⟨⟨"u1", "b"⟩, 1, "A"⟩
      (by decide) (by decide)⟩
